import Mathlib

/-!
# Computer-Card-Delay: the per-sample pipeline of `AudioDelay` (src/main.cpp)

A shallow embedding of the class `AudioDelay`.  The member variables become the
fields of `State`; everything the hardware abstraction layer returns during one
call of `ProcessMainSample` becomes one record `Inputs`; every member function
becomes a function on `State`.

Conventions of the embedding:

* C++ `int`, `int32_t` and `int16_t` values are `Int`.  The narrowing
  `static_cast<int16_t>` is `toInt16` (two's-complement wrap), the unsigned
  32-bit counters are `Nat` reduced with `% 2 ^ 32`, and `uint16_t` is reduced
  with `% 2 ^ 16`.  Signed 32-bit arithmetic is exact on every value the claims
  range over (the largest products are `96000 * 2048` and `32767 * 1024`).
* `>>` on a signed value is the arithmetic shift `asr` (floor division by a
  power of two); C++ `/` and `%` are the truncating `Int.tdiv` and `Int.tmod`.
* The heap array `delayBuffer` is a map from index to sample.  Only the
  indices `0 .. MAX_DELAY_SAMPLES - 1` are cells of the C++ array.
* `PulseOut1(level)` is recorded in the field `pulseOut1`, `AudioOut1/2` in
  `audioOut1/2`.  The LED renderer and the microsecond timing guard only drive
  outputs that nothing in the class reads back; they are not modelled beyond
  the counters they keep.
-/

namespace AudioDelay

/-! ## Machine arithmetic -/

/-- Arithmetic right shift of a signed value (`x >> k`). -/
def asr (x : Int) (k : Nat) : Int := Int.shiftRight x k

/-- The value of `static_cast<int16_t>(x)`. -/
def toInt16 (x : Int) : Int := (x + 32768) % 65536 - 32768

/-- The value of a conversion to `uint16_t`. -/
def toUInt16 (x : Int) : Int := x % 65536

/-- Wraparound of `uint32_t` arithmetic. -/
def wrap32 (n : Int) : Nat := (n % 4294967296).toNat

/-! ## Data model -/

/-- The constant `static const int MAX_DELAY_SAMPLES = 96000`. -/
def MAX_DELAY_SAMPLES : Int := 96000

/-- Positions of the three-way switch (`enum Switch`). -/
inductive Switch where
  | Down
  | Middle
  | Up
  deriving DecidableEq, Repr

/-- What the hardware abstraction layer returns during one tick. -/
structure Inputs where
  pulseIn1RisingEdge : Bool
  pulseIn2RisingEdge : Bool
  audioIn1 : Int
  connectedCV1 : Bool
  cvIn1 : Int
  knobMain : Int
  connectedCV2 : Bool
  cvIn2 : Int
  knobX : Int
  knobY : Int
  switchVal : Switch
  switchChanged : Bool

/-- The member variables of `AudioDelay`, with the levels last driven on the
outputs. -/
structure State where
  delayBuffer : Int → Int
  writePosition : Int
  delayTime : Int
  feedback : Int
  wet : Int
  inputGain : Int
  bypassEffect : Bool
  freezeBuffer : Bool
  lastTapTime : Nat
  tapCounter : Nat
  tapTempoActive : Bool
  tapDelayTime : Int
  delayCycleCounter : Int
  lastDelayTime : Int
  ledUpdateCounter : Int
  filterState1 : Int
  filterState2 : Int
  filterCoeff : Int
  overflowPulseCounter : Nat
  pulseOut1 : Bool
  audioOut1 : Int
  audioOut2 : Int

/-- The state after the constructor: member initialisers and a zeroed buffer. -/
def initialState : State where
  delayBuffer := fun _ => 0
  writePosition := 0
  delayTime := 24000
  feedback := 512
  wet := 512
  inputGain := 1024
  bypassEffect := false
  freezeBuffer := false
  lastTapTime := 0
  tapCounter := 0
  tapTempoActive := false
  tapDelayTime := 24000
  delayCycleCounter := 0
  lastDelayTime := 24000
  ledUpdateCounter := 0
  filterState1 := 0
  filterState2 := 0
  filterCoeff := 819
  overflowPulseCounter := 0
  pulseOut1 := false
  audioOut1 := 0
  audioOut2 := 0

/-- The assignment `buf[i] = v`. -/
def setAt (buf : Int → Int) (i v : Int) : Int → Int :=
  fun j => if j = i then v else buf j

/-! ## `ClearBuffer` -/

/-- The loop of `ClearBuffer`: the buffer after its first `n` iterations
(`i = 0, …, n - 1`). -/
def clearLoop (buf : Int → Int) : Nat → (Int → Int)
  | 0 => buf
  | n + 1 => setAt (clearLoop buf n) n 0

/-- The function `ClearBuffer`:
`for (i = 0; i < MAX_DELAY_SAMPLES; i++) delayBuffer[i] = 0`. -/
def ClearBuffer (s : State) : State :=
  { s with delayBuffer := clearLoop s.delayBuffer MAX_DELAY_SAMPLES.toNat }

/-! ## `HandleTapTempo` and `HandlePulseInputs` -/

/-- The table `const int delayTimes[10]` of `HandleTapTempo`. -/
def tapDelayTimes : List Int :=
  [2400, 4800, 9600, 14400, 24000, 38400, 48000, 67200, 81600, 96000]

/-- The search loop of `HandleTapTempo`: `n` further iterations starting at
index `i`, carrying `closestIndex` and `minDifference`; returns the final
`closestIndex`. -/
def closestLoop (tapDelayTime : Int) : Nat → Nat → Nat → Int → Nat
  | 0, _, closestIndex, _ => closestIndex
  | n + 1, i, closestIndex, minDifference =>
    let difference := |tapDelayTime - tapDelayTimes.getD i 0|
    if difference < minDifference then
      closestLoop tapDelayTime n (i + 1) i difference
    else
      closestLoop tapDelayTime n (i + 1) closestIndex minDifference

/-- The index chosen by `HandleTapTempo` for an accepted interval. -/
def closestIndex (tapDelayTime : Int) : Nat :=
  closestLoop tapDelayTime 9 1 0 |tapDelayTime - tapDelayTimes.getD 0 0|

/-- The interval `currentTime - lastTapTime` in `uint32_t` arithmetic, where
`currentTime` is the value of `tapCounter` before its post-increment. -/
def tapInterval (s : State) : Nat :=
  wrap32 ((s.tapCounter : Int) - (s.lastTapTime : Int))

/-- The function `HandleTapTempo`. -/
def HandleTapTempo (s : State) : State :=
  let currentTime := s.tapCounter
  let s := { s with tapCounter := wrap32 ((s.tapCounter : Int) + 1) }
  let s :=
    if s.lastTapTime > 0 then
      let tapInterval := wrap32 ((currentTime : Int) - (s.lastTapTime : Int))
      if tapInterval ≥ 2400 ∧ tapInterval ≤ 96000 then
        let s := { s with tapDelayTime := (tapInterval : Int), tapTempoActive := true }
        { s with delayTime := tapDelayTimes.getD (closestIndex s.tapDelayTime) 0 }
      else s
    else s
  { s with lastTapTime := currentTime }

/-- The function `HandlePulseInputs`. -/
def HandlePulseInputs (s : State) (i : Inputs) : State :=
  let s := if i.pulseIn1RisingEdge then HandleTapTempo s else s
  if i.pulseIn2RisingEdge then { s with freezeBuffer := !s.freezeBuffer } else s

/-! ## The signal path of `ProcessMainSample` (lines 57-130) -/

/-- The gained input
`inputSample = static_cast<int16_t>((rawInput * inputGain) >> 10)`. -/
def inputSample (s : State) (rawInput : Int) : Int :=
  toInt16 (asr (rawInput * s.inputGain) 10)

/-- The read position for an offset behind the write cursor (lines 62-63 and
76-77): `writePosition - offset`, plus the buffer length when negative. -/
def wrapPosition (writePosition offset : Int) : Int :=
  let p := writePosition - offset
  if p < 0 then p + MAX_DELAY_SAMPLES else p

/-- The local `readPosition1`: the read position for the offset `delayTime`. -/
def readPosition1 (s : State) : Int := wrapPosition s.writePosition s.delayTime

/-- The local `delayTime2`: the offset of the second tap. -/
def delayTime2 (s : State) : Int :=
  if s.delayTime ≤ 768 then Int.tdiv s.delayTime 2 else Int.tdiv (s.delayTime * 3) 4

/-- The local `readPosition2`: the read position for the offset `delayTime2`. -/
def readPosition2 (s : State) : Int := wrapPosition s.writePosition (delayTime2 s)

/-- The primary tap `delaySample1 = delayBuffer[readPosition1]`. -/
def delaySample1 (s : State) : Int := s.delayBuffer (readPosition1 s)

/-- The second tap `delaySample2 = delayBuffer[readPosition2]`. -/
def delaySample2 (s : State) : Int := s.delayBuffer (readPosition2 s)

/-- The feedback sum before clipping:
`inputSample + ((delaySample1 * feedback) >> 10)`. -/
def feedbackSum (s : State) (rawInput : Int) : Int :=
  inputSample s rawInput + asr (delaySample1 s * s.feedback) 10

/-- The value of `newDelaySample` after the two clipping statements. -/
def newDelaySample (s : State) (rawInput : Int) : Int :=
  let v := feedbackSum s rawInput
  let v := if v > 2047 then 2047 else v
  if v < -2048 then -2048 else v

/-- The wet/dry sum of one channel before the narrowing cast:
`((inputSample * dry) + (tap * wet)) >> 10` with `dry = 1024 - wet`. -/
def mixValue (s : State) (rawInput tap : Int) : Int :=
  let dry := 1024 - s.wet
  asr (inputSample s rawInput * dry + tap * s.wet) 10

/-- The local `outputSample1`, the channel-1 value fed to the smoothing filter. -/
def outputSample1 (s : State) (rawInput : Int) : Int :=
  if s.bypassEffect then inputSample s rawInput
  else toInt16 (mixValue s rawInput (delaySample1 s))

/-- The local `outputSample2`, the channel-2 value fed to the smoothing filter. -/
def outputSample2 (s : State) (rawInput : Int) : Int :=
  if s.bypassEffect then inputSample s rawInput
  else toInt16 (mixValue s rawInput (delaySample2 s))

/-- One update of the one-pole filter:
`((state * filterCoeff) + (x * (1024 - filterCoeff))) >> 10`. -/
def filterStep (filterCoeff state x : Int) : Int :=
  asr (state * filterCoeff + x * (1024 - filterCoeff)) 10

/-- Lines 57-130 of `ProcessMainSample`: read both taps, write the feedback
sample unless frozen, mix, filter and commit the two outputs. -/
def processSignal (s : State) (rawInput : Int) : State :=
  let out1 := outputSample1 s rawInput
  let out2 := outputSample2 s rawInput
  let new := newDelaySample s rawInput
  let f1 := filterStep s.filterCoeff s.filterState1 out1
  let f2 := filterStep s.filterCoeff s.filterState2 out2
  let s :=
    if !s.freezeBuffer then
      { s with
        delayBuffer := setAt s.delayBuffer s.writePosition (toInt16 new)
        writePosition := Int.tmod (s.writePosition + 1) MAX_DELAY_SAMPLES }
    else s
  { s with
    filterState1 := f1
    filterState2 := f2
    audioOut1 := toInt16 f1
    audioOut2 := toInt16 f2 }

/-! ## `ReadControls` -/

/-- The table `const int delayTimes[20]` of `ReadControls`. -/
def delayTimes : List Int :=
  [48, 96, 192, 384, 768, 1440, 2400, 3600, 4800, 7200,
   12000, 19200, 28800, 43200, 62400, 72000, 76800, 81600, 86400, 96000]

/-- The segment index computed from CV1 or from the main knob, clamped above
at 19. -/
def segment (i : Inputs) : Int :=
  let seg :=
    if i.connectedCV1 then Int.tdiv (toInt16 i.cvIn1 + 2048) 205
    else Int.tdiv (toUInt16 i.knobMain) 205
  if seg > 19 then 19 else seg

/-- The lookup `delayTimes[segment]`.  A negative index is outside the C++
array; the model yields 0 there. -/
def delayTimesAt (seg : Int) : Int :=
  if 0 ≤ seg then delayTimes.getD seg.toNat 0 else 0

/-- The LFO modulation amount `modAmount` for the current delay time. -/
def modAmount (delayTime lfoVal : Int) : Int :=
  if delayTime ≤ 768 then asr (delayTime * lfoVal * 3) 13
  else if delayTime ≤ 7200 then asr (delayTime * lfoVal) 17
  else asr (delayTime * lfoVal) 16

/-- The value of `modulatedDelay` after the two clamping statements. -/
def modulatedDelay (delayTime lfoVal : Int) : Int :=
  let m := delayTime + modAmount delayTime lfoVal
  let m := if m < 24 then 24 else m
  if m > MAX_DELAY_SAMPLES then MAX_DELAY_SAMPLES else m

/-- The function `ReadControls`. -/
def ReadControls (s : State) (i : Inputs) : State :=
  let s :=
    if !s.tapTempoActive then { s with delayTime := delayTimesAt (segment i) } else s
  let s :=
    if i.connectedCV2 then
      { s with
        delayTime := modulatedDelay s.delayTime (toInt16 i.cvIn2)
        feedback := asr (i.knobX * 922) 12 }
    else
      { s with feedback := asr (i.knobX * 922) 12 }
  let s := { s with wet := asr (i.knobY * 1024) 12 }
  if i.switchChanged then
    if i.switchVal = Switch.Up then
      ClearBuffer { s with bypassEffect := true }
    else
      { s with bypassEffect := false }
  else s

/-! ## `UpdateDelayClock` -/

/-- The function `UpdateDelayClock`. -/
def UpdateDelayClock (s : State) : State :=
  let s :=
    if s.delayTime ≠ s.lastDelayTime then
      { s with delayCycleCounter := 0, lastDelayTime := s.delayTime, pulseOut1 := false }
    else s
  if !s.freezeBuffer then
    let s := { s with delayCycleCounter := s.delayCycleCounter + 1 }
    if s.delayCycleCounter ≥ s.delayTime then
      { s with pulseOut1 := true, delayCycleCounter := 0 }
    else if s.delayCycleCounter = 480 then
      { s with pulseOut1 := false }
    else s
  else s

/-! ## `ProcessMainSample` -/

/-- The constant `LED_UPDATE_RATE`. -/
def LED_UPDATE_RATE : Int := 4800

/-- One tick: `ProcessMainSample`. -/
def ProcessMainSample (s : State) (i : Inputs) : State :=
  let s := HandlePulseInputs s i
  let s := processSignal s (toInt16 i.audioIn1)
  let s := ReadControls s i
  let s := UpdateDelayClock s
  let s := { s with ledUpdateCounter := s.ledUpdateCounter + 1 }
  let s := if s.ledUpdateCounter ≥ LED_UPDATE_RATE then { s with ledUpdateCounter := 0 } else s
  if s.overflowPulseCounter > 0 then
    { s with overflowPulseCounter := s.overflowPulseCounter - 1 }
  else s

/-- The state after a sequence of ticks. -/
def run (s : State) : List Inputs → State
  | [] => s
  | i :: rest => run (ProcessMainSample s i) rest

/-! ## Runs used in the statements -/

/-- The state after `n` runs of the signal path alone (lines 57-130), on the
raw input samples `inp 0, …, inp (n - 1)`; the control fields keep their
values. -/
def signalRun (s : State) (inp : Nat → Int) : Nat → State
  | 0 => s
  | n + 1 => processSignal (signalRun s inp n) (inp n)

/-! ## Predicates used in the statements -/

/-- The documented ranges of the control inputs: knobs in `[0, 4095]`, control
voltages in `[-2048, 2047]`.  Jack flags, switch values and pulse edges are
unconstrained. -/
def ControlsInRange (i : Inputs) : Prop :=
  (0 ≤ i.knobMain ∧ i.knobMain ≤ 4095) ∧ (0 ≤ i.knobX ∧ i.knobX ≤ 4095) ∧
  (0 ≤ i.knobY ∧ i.knobY ≤ 4095) ∧
  (-2048 ≤ i.cvIn1 ∧ i.cvIn1 ≤ 2047) ∧ (-2048 ≤ i.cvIn2 ∧ i.cvIn2 ≤ 2047)

instance : DecidablePred ControlsInRange := fun i => by
  unfold ControlsInRange; infer_instance

/-- The ranges of the data model: cursor in `[0, 96000)`, delay time in
`[24, 96000]`, feedback in `[0, 922]`, wet in `[0, 1024]`. -/
def ParamsInRange (s : State) : Prop :=
  (0 ≤ s.writePosition ∧ s.writePosition < 96000) ∧
  (24 ≤ s.delayTime ∧ s.delayTime ≤ 96000) ∧
  (0 ≤ s.feedback ∧ s.feedback ≤ 922) ∧
  (0 ≤ s.wet ∧ s.wet ≤ 1024)

/-- The documented range of the audio input: `[-2048, 2047]`. -/
def AudioInRange (i : Inputs) : Prop := -2048 ≤ i.audioIn1 ∧ i.audioIn1 ≤ 2047

instance : DecidablePred AudioInRange := fun i => by
  unfold AudioInRange; infer_instance

/-- The signal state is in the 12-bit range: unity gain, filter coefficient
819, every cell of the buffer and both filter states in `[-2048, 2047]`. -/
def SignalInRange (s : State) : Prop :=
  s.inputGain = 1024 ∧ s.filterCoeff = 819 ∧
  (∀ j, 0 ≤ j ∧ j < 96000 → -2048 ≤ s.delayBuffer j ∧ s.delayBuffer j ≤ 2047) ∧
  (-2048 ≤ s.filterState1 ∧ s.filterState1 ≤ 2047) ∧
  (-2048 ≤ s.filterState2 ∧ s.filterState2 ≤ 2047)

/-- No write occurs on any tick of the run: the buffer is frozen whenever the
signal path runs (that is, after `HandlePulseInputs` of that tick). -/
def FrozenRun : State → List Inputs → Prop
  | _, [] => True
  | s, i :: rest =>
    (HandlePulseInputs s i).freezeBuffer = true ∧ FrozenRun (ProcessMainSample s i) rest

/-- The delay time that `UpdateDelayClock` sees on the tick from `s` with
inputs `i`: the one `ReadControls` has just left. -/
def clockDelayTime (s : State) (i : Inputs) : Int :=
  (ReadControls (processSignal (HandlePulseInputs s i) (toInt16 i.audioIn1)) i).delayTime

/-- On every tick of the run the delay time seen by `UpdateDelayClock` equals
`lastDelayTime`. -/
def DelayStableRun : State → List Inputs → Prop
  | _, [] => True
  | s, i :: rest =>
    clockDelayTime s i = s.lastDelayTime ∧ DelayStableRun (ProcessMainSample s i) rest

/-- The state after `n` calls of `UpdateDelayClock` alone; the delay time and
the freeze flag keep their values. -/
def clockRun (s : State) : Nat → State
  | 0 => s
  | n + 1 => UpdateDelayClock (clockRun s n)

/-- Whether the call of `UpdateDelayClock` in state `s` executes
`PulseOut1(true)` (line 384): the buffer is not frozen and the incremented
counter has reached the delay time. -/
def pulseStarts (s : State) : Bool :=
  let counter := if s.delayTime ≠ s.lastDelayTime then 0 else s.delayCycleCounter
  !s.freezeBuffer && decide (counter + 1 ≥ s.delayTime)

/-- Whether the call of `UpdateDelayClock` in state `s` executes the
`PulseOut1(false)` of line 387: the buffer is not frozen and the incremented
counter is below the delay time and equal to 480. -/
def pulseEnds (s : State) : Bool :=
  let counter := if s.delayTime ≠ s.lastDelayTime then 0 else s.delayCycleCounter
  !s.freezeBuffer && !decide (counter + 1 ≥ s.delayTime) && decide (counter + 1 = 480)

/-- The value the delay-time segment is computed from: CV1 shifted by 2048 when
the CV1 jack is connected, the main knob otherwise. -/
def selectionValue (i : Inputs) : Int :=
  if i.connectedCV1 then i.cvIn1 + 2048 else i.knobMain

/-- The tap fields as every reachable state has them: tap tempo inactive, both
counters inside the 32-bit range, and either no tap yet (both 0) or the counter
one ahead of `lastTapTime` in 32-bit arithmetic. -/
def TapFieldsInv (s : State) : Prop :=
  s.tapTempoActive = false ∧ s.tapCounter < 4294967296 ∧ s.lastTapTime < 4294967296 ∧
  ((s.tapCounter = 0 ∧ s.lastTapTime = 0) ∨
    s.tapCounter = (s.lastTapTime + 1) % 4294967296)

/-! ## Concrete states and inputs used as instances -/

/-- The initial state with the feedback at 0, the mix fully wet, the longest
delay and the cursor on the last cell. -/
def readbackState : State :=
  { initialState with feedback := 0, wet := 1024, delayTime := 96000, writePosition := 95999 }

/-- An input sequence with samples in `[-2048, 2047]`. -/
def sawInput (k : Nat) : Int := (k : Int) % 2048

/-- A tick with every knob at its top, both CV jacks patched, a tap and a
freeze edge, and the switch just moved up. -/
def busyInputs : Inputs where
  pulseIn1RisingEdge := true
  pulseIn2RisingEdge := true
  audioIn1 := 2047
  connectedCV1 := true
  cvIn1 := 2047
  knobMain := 4095
  connectedCV2 := true
  cvIn2 := -2048
  knobX := 4095
  knobY := 4095
  switchVal := Switch.Up
  switchChanged := true

/-- A tick with every knob at zero, nothing patched and no edge. -/
def quietInputs : Inputs where
  pulseIn1RisingEdge := false
  pulseIn2RisingEdge := false
  audioIn1 := 100
  connectedCV1 := false
  cvIn1 := 0
  knobMain := 0
  connectedCV2 := false
  cvIn2 := 0
  knobX := 0
  knobY := 0
  switchVal := Switch.Middle
  switchChanged := false

/-- A state in which the previous tap was taken at counter value 1 and the
counter stands at 3601: the next tap measures the interval 3600, exactly
between the presets 2400 and 4800. -/
def tapState : State :=
  { initialState with lastTapTime := 1, tapCounter := 3601 }

/-- The quiet tick with the switch just moved down. -/
def switchDownInputs : Inputs :=
  { quietInputs with switchVal := Switch.Down, switchChanged := true }

/-- The quiet tick with the switch held up (no change reported). -/
def switchHeldInputs : Inputs :=
  { quietInputs with switchVal := Switch.Up, switchChanged := false }

/-- The quiet tick with a rising edge on pulse input 2. -/
def freezeInputs : Inputs :=
  { quietInputs with pulseIn2RisingEdge := true }

/-- The state after one quiet tick and one tick with the freeze edge: frozen,
with the sample 100 in cell 0, delay time 48 and the cycle counter at 1. -/
def frozenState : State := run initialState [quietInputs, freezeInputs]

/-- A tick within all documented ranges, without pulse edges: the main knob at
its top and the switch just moved up. -/
def knobUpInputs : Inputs :=
  { quietInputs with knobMain := 4095, switchVal := Switch.Up, switchChanged := true }

/-- The initial state as `ReadControls` leaves it on a first quiet tick: the
delay time is now 48 while `lastDelayTime` is still 24000. -/
def retunedState : State := { initialState with delayTime := 48 }

/-- A clock state at the start of a cycle: delay time 48, counter 0, pulse low,
not frozen. -/
def clockState48 : State :=
  { initialState with delayTime := 48, lastDelayTime := 48 }

/-- A clock state one call before the end of a cycle of 24000 samples. -/
def clockState24000 : State :=
  { initialState with delayCycleCounter := 23999 }

/-- A tick within the documented ranges that selects the preset 1440 (main knob
at 1025, segment 5) with CV2 patched and at its lowest value. -/
def chorusLfoInputs : Inputs :=
  { quietInputs with knobMain := 1025, connectedCV2 := true, cvIn2 := -2048 }

/-- The input of the impulse scenario: 2047 at tick 0, then zeros. -/
def impulseInput (n : Nat) : Int := if n = 0 then 2047 else 0

/-- The start of the impulse scenario: the initial state (zeroed buffer, cursor
0, delay time 24000, feedback 512, unity gain, no freeze, no bypass) with the
mix fully wet. -/
def impulseState : State := { initialState with wet := 1024 }

/-- The value the impulse scenario stores at tick `n`, in closed form:
`2047 >> k` at tick `24000 * k`, and 0 at every other tick. -/
def echoValue (n : Nat) : Int :=
  if n % 24000 = 0 then asr 2047 (n / 24000) else 0

/-- The quiet tick with a rising edge on pulse input 1 (a tap). -/
def tapInputs : Inputs :=
  { quietInputs with pulseIn1RisingEdge := true }

/-- A tick within the documented ranges: main knob at 0 (preset 48), CV2
patched and at its lowest value, so that the modulated delay is clamped to 24. -/
def flangerLfoInputs : Inputs :=
  { quietInputs with connectedCV2 := true, cvIn2 := -2048 }

theorem asr_eq_div (x : Int) (k : Nat) : asr x k = x / 2 ^ k := by
  unfold asr
  have h := Int.shiftRight_eq_div_pow x k
  simpa using h

theorem asr10 (x : Int) : asr x 10 = x / 1024 := by
  rw [asr_eq_div]; norm_num

theorem toInt16_of_range {x : Int} (h1 : -32768 ≤ x) (h2 : x ≤ 32767) : toInt16 x = x := by
  unfold toInt16; omega

/-! ## `ClearBuffer` zeroes exactly the cells of the array -/

theorem clearLoop_apply (buf : Int → Int) (n : Nat) (j : Int) :
    clearLoop buf n j = if 0 ≤ j ∧ j < n then 0 else buf j := by
  induction n with
  | zero => simp [clearLoop]; omega
  | succ n ih =>
    rw [clearLoop]
    unfold setAt
    rw [ih]
    split_ifs <;> first | rfl | omega

theorem ClearBuffer_apply (s : State) (j : Int) :
    (ClearBuffer s).delayBuffer j =
      if 0 ≤ j ∧ j < MAX_DELAY_SAMPLES then 0 else s.delayBuffer j := by
  unfold ClearBuffer
  simp only [clearLoop_apply, MAX_DELAY_SAMPLES]
  norm_num

/-! ## C1: read-back through the delay line -/

theorem processSignal_params (s : State) (x : Int) :
    (processSignal s x).delayTime = s.delayTime ∧
    (processSignal s x).feedback = s.feedback ∧
    (processSignal s x).wet = s.wet ∧
    (processSignal s x).inputGain = s.inputGain ∧
    (processSignal s x).bypassEffect = s.bypassEffect ∧
    (processSignal s x).freezeBuffer = s.freezeBuffer := by
  unfold processSignal
  cases h : s.freezeBuffer <;> simp [h]

theorem signalRun_params (s : State) (inp : Nat → Int) (n : Nat) :
    (signalRun s inp n).delayTime = s.delayTime ∧
    (signalRun s inp n).feedback = s.feedback ∧
    (signalRun s inp n).wet = s.wet ∧
    (signalRun s inp n).inputGain = s.inputGain ∧
    (signalRun s inp n).bypassEffect = s.bypassEffect ∧
    (signalRun s inp n).freezeBuffer = s.freezeBuffer := by
  induction n with
  | zero => simp [signalRun]
  | succ n ih =>
    obtain ⟨h1, h2, h3, h4, h5, h6⟩ := ih
    obtain ⟨g1, g2, g3, g4, g5, g6⟩ := processSignal_params (signalRun s inp n) (inp n)
    simp only [signalRun]
    exact ⟨g1.trans h1, g2.trans h2, g3.trans h3, g4.trans h4, g5.trans h5, g6.trans h6⟩

theorem inputSample_unity (s : State) (x : Int) (hg : s.inputGain = 1024)
    (h1 : -32768 ≤ x) (h2 : x ≤ 32767) : inputSample s x = x := by
  unfold inputSample
  rw [hg, asr10]
  have : x * 1024 / 1024 = x := by omega
  rw [this, toInt16_of_range h1 h2]

theorem processSignal_unfrozen (s : State) (x : Int) (hf : s.freezeBuffer = false) :
    (processSignal s x).delayBuffer =
        setAt s.delayBuffer s.writePosition (toInt16 (newDelaySample s x)) ∧
    (processSignal s x).writePosition = Int.tmod (s.writePosition + 1) MAX_DELAY_SAMPLES := by
  unfold processSignal
  simp [hf]

theorem tmod_succ_cursor {c : Int} (hc : 0 ≤ c) :
    Int.tmod (c + 1) MAX_DELAY_SAMPLES = (c + 1) % 96000 := by
  unfold MAX_DELAY_SAMPLES
  rw [Int.tmod_eq_emod (by omega) (by omega)]

theorem signalRun_cursor (s : State) (inp : Nat → Int) (n : Nat)
    (hf : s.freezeBuffer = false)
    (hc : 0 ≤ s.writePosition) (hc2 : s.writePosition < MAX_DELAY_SAMPLES) :
    (signalRun s inp n).writePosition = (s.writePosition + n) % 96000 := by
  unfold MAX_DELAY_SAMPLES at hc2
  induction n with
  | zero => simp only [signalRun]; omega
  | succ n ih =>
    have hf2 := (signalRun_params s inp n).2.2.2.2.2
    simp only [signalRun]
    rw [(processSignal_unfrozen _ _ (hf2.trans hf)).2, tmod_succ_cursor (by rw [ih]; omega), ih]
    push_cast
    omega

/-- With feedback 0 and unity gain the sample stored for an input in the
12-bit range is the input itself. -/
theorem newDelaySample_feedback_zero (s : State) (x : Int) (hfb : s.feedback = 0)
    (hg : s.inputGain = 1024) (h1 : -2048 ≤ x) (h2 : x ≤ 2047) :
    toInt16 (newDelaySample s x) = x := by
  unfold newDelaySample feedbackSum
  rw [inputSample_unity s x hg (by omega) (by omega), hfb, asr10]
  simp only [mul_zero, Int.zero_ediv, add_zero]
  rw [if_neg (by omega), if_neg (by omega)]
  exact toInt16_of_range (by omega) (by omega)

/-- The cell written at tick `k` still holds that tick's input at every later
tick `n` up to `k + 96000`. -/
theorem signalRun_buffer (s : State) (inp : Nat → Int)
    (hf : s.freezeBuffer = false) (hfb : s.feedback = 0) (hg : s.inputGain = 1024)
    (hc : 0 ≤ s.writePosition) (hc2 : s.writePosition < MAX_DELAY_SAMPLES)
    (hin : ∀ k, -2048 ≤ inp k ∧ inp k ≤ 2047) (n k : Nat) (hk : k < n) (hn : n ≤ k + 96000) :
    (signalRun s inp n).delayBuffer ((s.writePosition + k) % 96000) = inp k := by
  induction n with
  | zero => omega
  | succ n ih =>
    obtain ⟨-, p2, -, p4, -, p6⟩ := signalRun_params s inp n
    simp only [signalRun]
    rw [(processSignal_unfrozen _ _ (p6.trans hf)).1, signalRun_cursor s inp n hf hc hc2]
    unfold setAt
    by_cases hkn : k = n
    · subst hkn
      rw [if_pos rfl]
      exact newDelaySample_feedback_zero _ _ (p2.trans hfb) (p4.trans hg) (hin k).1 (hin k).2
    · rw [if_neg (by unfold MAX_DELAY_SAMPLES at hc2; omega)]
      exact ih (by omega) (by omega)

/-- C1. Delay-line read-back: with feedback 0, wet 1024, bypass and freeze off,
unity input gain and a constant delay time `d` in `[24, 96000]`, from any
cursor in `[0, 96000)`, any buffer content and any input sequence with samples
in `[-2048, 2047]`, the channel-1 value handed to the smoothing filter at tick
`t + d` is the gained input sample of tick `t` (which is the raw sample, the
gain being unity). -/
theorem delay_line_readback (s : State) (inp : Nat → Int) (d t : Nat)
    (hd : 24 ≤ d ∧ (d : Int) ≤ MAX_DELAY_SAMPLES) (hdt : s.delayTime = d)
    (hfb : s.feedback = 0) (hwet : s.wet = 1024) (hg : s.inputGain = 1024)
    (hby : s.bypassEffect = false) (hf : s.freezeBuffer = false)
    (hc : 0 ≤ s.writePosition ∧ s.writePosition < MAX_DELAY_SAMPLES)
    (hin : ∀ k, -2048 ≤ inp k ∧ inp k ≤ 2047) :
    outputSample1 (signalRun s inp (t + d)) (inp (t + d))
        = inputSample (signalRun s inp t) (inp t) ∧
      inputSample (signalRun s inp t) (inp t) = inp t := by
  obtain ⟨q1, -, q3, q4, q5, -⟩ := signalRun_params s inp (t + d)
  obtain ⟨-, -, -, r4, -, -⟩ := signalRun_params s inp t
  have hgain : inputSample (signalRun s inp t) (inp t) = inp t :=
    inputSample_unity _ _ (r4.trans hg) (by have := hin t; omega) (by have := hin t; omega)
  refine ⟨?_, hgain⟩
  rw [hgain]
  have hd2 : (d : Int) ≤ 96000 := hd.2
  have hc2 : s.writePosition < 96000 := hc.2
  have hpos : readPosition1 (signalRun s inp (t + d)) = (s.writePosition + t) % 96000 := by
    unfold readPosition1 wrapPosition
    rw [signalRun_cursor s inp _ hf hc.1 hc.2, q1, hdt]
    unfold MAX_DELAY_SAMPLES
    push_cast
    split_ifs <;> omega
  have htap : delaySample1 (signalRun s inp (t + d)) = inp t := by
    unfold delaySample1
    rw [hpos]
    exact signalRun_buffer s inp hf hfb hg hc.1 hc.2 hin (t + d) t (by omega) (by omega)
  unfold outputSample1 mixValue
  rw [q5.trans hby, htap, q3.trans hwet, asr10]
  simp only [Bool.false_eq_true, if_false, sub_self, mul_zero, zero_add]
  have : inp t * 1024 / 1024 = inp t := by omega
  rw [this]
  exact toInt16_of_range (by have := hin t; omega) (by have := hin t; omega)

/-- Instance of C1: delay 96000 (the buffer length) from cursor 95999, so that
the read-back crosses the wraparound. -/
theorem delay_line_readback_witness :
    outputSample1 (signalRun readbackState sawInput (3 + 96000)) (sawInput (3 + 96000))
        = inputSample (signalRun readbackState sawInput 3) (sawInput 3) ∧
      inputSample (signalRun readbackState sawInput 3) (sawInput 3) = sawInput 3 :=
  delay_line_readback readbackState sawInput 96000 3 (by decide) rfl rfl rfl rfl rfl rfl
    (by decide) (by intro k; unfold sawInput; omega)

/-! ## C2: the stored sample is clipped to 12 bits -/

/-- C2. For every raw input sample (taken as `int16_t` by the signal path),
every buffer content with `int16_t` entries and every feedback in `[0, 922]`,
the feedback sum is formed without leaving the 32-bit range, the value
`newDelaySample` lies in `[-2048, 2047]`, and it is the value found in the
buffer at the write cursor after an unfrozen run of the signal path. -/
theorem stored_sample_in_range (s : State) (rawInput : Int)
    (hbuf : ∀ j, -32768 ≤ s.delayBuffer j ∧ s.delayBuffer j ≤ 32767)
    (hfb : 0 ≤ s.feedback ∧ s.feedback ≤ 922) :
    (-2147483648 ≤ feedbackSum s rawInput ∧ feedbackSum s rawInput ≤ 2147483647) ∧
    (-2048 ≤ newDelaySample s rawInput ∧ newDelaySample s rawInput ≤ 2047) ∧
    (s.freezeBuffer = false →
      (processSignal s rawInput).delayBuffer s.writePosition = newDelaySample s rawInput) := by
  have hclip : -2048 ≤ newDelaySample s rawInput ∧ newDelaySample s rawInput ≤ 2047 := by
    unfold newDelaySample
    simp only
    split_ifs <;> omega
  refine ⟨?_, hclip, ?_⟩
  · unfold feedbackSum inputSample
    rw [asr10 (delaySample1 s * s.feedback)]
    have hb := hbuf (readPosition1 s)
    have h1 : delaySample1 s * s.feedback ≤ 32767 * 922 := by
      unfold delaySample1; nlinarith [hb.1, hb.2, hfb.1, hfb.2]
    have h2 : -(32768 * 922) ≤ delaySample1 s * s.feedback := by
      unfold delaySample1; nlinarith [hb.1, hb.2, hfb.1, hfb.2]
    unfold toInt16
    omega
  · intro hf
    rw [(processSignal_unfrozen s rawInput hf).1]
    unfold setAt
    rw [if_pos rfl]
    exact toInt16_of_range (by omega) (by omega)

/-- Instance of C2 at the initial state (feedback 512, zeroed buffer) with the
largest `int16_t` input. -/
theorem stored_sample_in_range_witness :
    (-2147483648 ≤ feedbackSum initialState 32767 ∧
      feedbackSum initialState 32767 ≤ 2147483647) ∧
    (-2048 ≤ newDelaySample initialState 32767 ∧ newDelaySample initialState 32767 ≤ 2047) ∧
    (initialState.freezeBuffer = false →
      (processSignal initialState 32767).delayBuffer initialState.writePosition
        = newDelaySample initialState 32767) :=
  stored_sample_in_range initialState 32767 (by intro j; simp [initialState]) (by decide)

/-! ## C3: both read positions are inside the buffer -/

/-- C3. For every write cursor in `[0, 96000)` and every delay time in
`[24, 96000]`, `readPosition1` (offset `delayTime`) and `readPosition2`
(offset `delayTime / 2` up to 768, `(delayTime * 3) / 4` above) lie in
`[0, 96000)` and equal `(cursor - offset + 96000) mod 96000`. -/
theorem read_positions_in_bounds (s : State)
    (hc : 0 ≤ s.writePosition ∧ s.writePosition < MAX_DELAY_SAMPLES)
    (hd : 24 ≤ s.delayTime ∧ s.delayTime ≤ MAX_DELAY_SAMPLES) :
    (0 ≤ readPosition1 s ∧ readPosition1 s < MAX_DELAY_SAMPLES) ∧
    readPosition1 s =
      (s.writePosition - s.delayTime + MAX_DELAY_SAMPLES) % MAX_DELAY_SAMPLES ∧
    delayTime2 s = (if s.delayTime ≤ 768 then s.delayTime / 2 else s.delayTime * 3 / 4) ∧
    (0 ≤ readPosition2 s ∧ readPosition2 s < MAX_DELAY_SAMPLES) ∧
    readPosition2 s =
      (s.writePosition - delayTime2 s + MAX_DELAY_SAMPLES) % MAX_DELAY_SAMPLES := by
  obtain ⟨hc1, hc2⟩ := hc
  obtain ⟨hd1, hd2⟩ := hd
  unfold MAX_DELAY_SAMPLES at *
  have h2 : delayTime2 s = (if s.delayTime ≤ 768 then s.delayTime / 2 else s.delayTime * 3 / 4) := by
    unfold delayTime2
    rw [Int.tdiv_eq_ediv (by omega) (by omega), Int.tdiv_eq_ediv (by omega) (by omega)]
  have h3 : 12 ≤ delayTime2 s ∧ delayTime2 s ≤ 72000 := by
    rw [h2]; split_ifs <;> omega
  refine ⟨?_, ?_, h2, ?_, ?_⟩
  · unfold readPosition1 wrapPosition MAX_DELAY_SAMPLES; simp only; split_ifs <;> omega
  · unfold readPosition1 wrapPosition MAX_DELAY_SAMPLES; simp only; split_ifs <;> omega
  · unfold readPosition2 wrapPosition MAX_DELAY_SAMPLES; simp only; split_ifs <;> omega
  · unfold readPosition2 wrapPosition MAX_DELAY_SAMPLES; simp only; split_ifs <;> omega

/-- Instance of C3: cursor 95999 with delay 96000. -/
theorem read_positions_in_bounds_witness :
    (0 ≤ readPosition1 readbackState ∧ readPosition1 readbackState < MAX_DELAY_SAMPLES) ∧
    readPosition1 readbackState =
      (readbackState.writePosition - readbackState.delayTime + MAX_DELAY_SAMPLES)
        % MAX_DELAY_SAMPLES ∧
    delayTime2 readbackState =
      (if readbackState.delayTime ≤ 768 then readbackState.delayTime / 2
       else readbackState.delayTime * 3 / 4) ∧
    (0 ≤ readPosition2 readbackState ∧ readPosition2 readbackState < MAX_DELAY_SAMPLES) ∧
    readPosition2 readbackState =
      (readbackState.writePosition - delayTime2 readbackState + MAX_DELAY_SAMPLES)
        % MAX_DELAY_SAMPLES :=
  read_positions_in_bounds readbackState (by decide) (by decide)

/-! ## C4: the parameter ranges are an invariant of the tick -/

theorem closestLoop_lt (t : Int) (n i ci : Nat) (md : Int) (h : ci < i) :
    closestLoop t n i ci md < i + n := by
  induction n generalizing i ci md with
  | zero => simpa [closestLoop] using h
  | succ n ih =>
    simp only [closestLoop]
    split_ifs
    · have := ih (i + 1) i |t - tapDelayTimes.getD i 0| (by omega); omega
    · have := ih (i + 1) ci md (by omega); omega

theorem closestIndex_lt (t : Int) : closestIndex t < 10 := by
  unfold closestIndex
  have := closestLoop_lt t 9 1 0 |t - tapDelayTimes.getD 0 0| (by omega)
  omega

theorem tapDelayTimes_range (k : Nat) (h : k < 10) :
    2400 ≤ tapDelayTimes.getD k 0 ∧ tapDelayTimes.getD k 0 ≤ 96000 := by
  interval_cases k <;> simp [tapDelayTimes]

/-- Frame of `HandleTapTempo`: it touches only the tap fields and `delayTime`. -/
theorem HandleTapTempo_frame (s : State) :
    (HandleTapTempo s).delayBuffer = s.delayBuffer ∧
    (HandleTapTempo s).writePosition = s.writePosition ∧
    (HandleTapTempo s).feedback = s.feedback ∧
    (HandleTapTempo s).wet = s.wet ∧
    (HandleTapTempo s).inputGain = s.inputGain ∧
    (HandleTapTempo s).bypassEffect = s.bypassEffect ∧
    (HandleTapTempo s).freezeBuffer = s.freezeBuffer ∧
    (HandleTapTempo s).delayCycleCounter = s.delayCycleCounter ∧
    (HandleTapTempo s).lastDelayTime = s.lastDelayTime ∧
    (HandleTapTempo s).filterState1 = s.filterState1 ∧
    (HandleTapTempo s).filterState2 = s.filterState2 ∧
    (HandleTapTempo s).filterCoeff = s.filterCoeff ∧
    (HandleTapTempo s).pulseOut1 = s.pulseOut1 := by
  unfold HandleTapTempo
  simp only
  split_ifs <;> simp

theorem HandleTapTempo_delayTime (s : State) :
    (HandleTapTempo s).delayTime = s.delayTime ∨
    (2400 ≤ (HandleTapTempo s).delayTime ∧ (HandleTapTempo s).delayTime ≤ 96000) := by
  unfold HandleTapTempo
  simp only
  split_ifs
  · right; exact tapDelayTimes_range _ (closestIndex_lt _)
  · left; rfl
  · left; rfl
/-- Frame of `HandlePulseInputs`: it touches only the tap fields, `delayTime` and the freeze
flag. -/
theorem HandlePulseInputs_frame (s : State) (i : Inputs) :
    (HandlePulseInputs s i).delayBuffer = s.delayBuffer ∧
    (HandlePulseInputs s i).writePosition = s.writePosition ∧
    (HandlePulseInputs s i).feedback = s.feedback ∧
    (HandlePulseInputs s i).wet = s.wet ∧
    (HandlePulseInputs s i).inputGain = s.inputGain ∧
    (HandlePulseInputs s i).bypassEffect = s.bypassEffect ∧
    (HandlePulseInputs s i).delayCycleCounter = s.delayCycleCounter ∧
    (HandlePulseInputs s i).lastDelayTime = s.lastDelayTime ∧
    (HandlePulseInputs s i).filterState1 = s.filterState1 ∧
    (HandlePulseInputs s i).filterState2 = s.filterState2 ∧
    (HandlePulseInputs s i).filterCoeff = s.filterCoeff ∧
    (HandlePulseInputs s i).pulseOut1 = s.pulseOut1 := by
  obtain ⟨h1, h2, h3, h4, h5, h6, -, h8, h9, h10, h11, h12, h13⟩ := HandleTapTempo_frame s
  unfold HandlePulseInputs
  simp only
  split_ifs <;> simp [*]

theorem HandlePulseInputs_freeze (s : State) (i : Inputs) :
    (HandlePulseInputs s i).freezeBuffer =
      if i.pulseIn2RisingEdge then !s.freezeBuffer else s.freezeBuffer := by
  have h := (HandleTapTempo_frame s).2.2.2.2.2.2.1
  unfold HandlePulseInputs
  simp only
  split_ifs <;> simp [*]

theorem HandlePulseInputs_delayTime (s : State) (i : Inputs) :
    (HandlePulseInputs s i).delayTime = s.delayTime ∨
    (2400 ≤ (HandlePulseInputs s i).delayTime ∧ (HandlePulseInputs s i).delayTime ≤ 96000) := by
  have h := HandleTapTempo_delayTime s
  unfold HandlePulseInputs
  simp only
  split_ifs <;> simp [*]

/-- The signal path touches only the buffer, the cursor, the filter states and
the audio outputs. -/
theorem processSignal_frame (s : State) (x : Int) :
    (processSignal s x).tapTempoActive = s.tapTempoActive ∧
    (processSignal s x).delayCycleCounter = s.delayCycleCounter ∧
    (processSignal s x).lastDelayTime = s.lastDelayTime ∧
    (processSignal s x).filterCoeff = s.filterCoeff ∧
    (processSignal s x).pulseOut1 = s.pulseOut1 := by
  unfold processSignal
  cases h : s.freezeBuffer <;> simp [h]

theorem processSignal_frozen (s : State) (x : Int) (hf : s.freezeBuffer = true) :
    (processSignal s x).delayBuffer = s.delayBuffer ∧
    (processSignal s x).writePosition = s.writePosition := by
  unfold processSignal
  simp [hf]

theorem processSignal_cursor (s : State) (x : Int)
    (hc : 0 ≤ s.writePosition ∧ s.writePosition < 96000) :
    0 ≤ (processSignal s x).writePosition ∧ (processSignal s x).writePosition < 96000 := by
  cases hf : s.freezeBuffer
  · rw [(processSignal_unfrozen s x hf).2, tmod_succ_cursor hc.1]; omega
  · rw [(processSignal_frozen s x hf).2]; exact hc

theorem segment_range (i : Inputs) (h : ControlsInRange i) :
    0 ≤ segment i ∧ segment i ≤ 19 := by
  obtain ⟨⟨m1, m2⟩, -, -, ⟨c1, c2⟩, -⟩ := h
  unfold segment
  simp only
  rw [toInt16_of_range (by omega) (by omega)]
  unfold toUInt16
  rw [Int.tdiv_eq_ediv (by omega) (by omega), Int.tdiv_eq_ediv (by omega) (by omega)]
  split_ifs <;> omega

theorem delayTimesAt_range (seg : Int) (h : 0 ≤ seg ∧ seg ≤ 19) :
    48 ≤ delayTimesAt seg ∧ delayTimesAt seg ≤ 96000 := by
  obtain ⟨h1, h2⟩ := h
  unfold delayTimesAt
  rw [if_pos h1]
  interval_cases seg <;> simp [delayTimes]

theorem modulatedDelay_range (d lfo : Int) :
    24 ≤ modulatedDelay d lfo ∧ modulatedDelay d lfo ≤ 96000 := by
  unfold modulatedDelay MAX_DELAY_SAMPLES
  simp only
  split_ifs <;> omega

theorem feedback_scale_range (x : Int) (h : 0 ≤ x ∧ x ≤ 4095) :
    0 ≤ asr (x * 922) 12 ∧ asr (x * 922) 12 ≤ 921 := by
  rw [asr_eq_div]; norm_num; omega

theorem wet_scale_range (y : Int) (h : 0 ≤ y ∧ y ≤ 4095) :
    0 ≤ asr (y * 1024) 12 ∧ asr (y * 1024) 12 ≤ 1023 := by
  rw [asr_eq_div]; norm_num; omega

/-- Frame of `ClearBuffer`: it touches only the buffer. -/
theorem ClearBuffer_frame (s : State) :
    (ClearBuffer s).writePosition = s.writePosition ∧
    (ClearBuffer s).delayTime = s.delayTime ∧
    (ClearBuffer s).feedback = s.feedback ∧
    (ClearBuffer s).wet = s.wet ∧
    (ClearBuffer s).inputGain = s.inputGain ∧
    (ClearBuffer s).bypassEffect = s.bypassEffect ∧
    (ClearBuffer s).freezeBuffer = s.freezeBuffer ∧
    (ClearBuffer s).tapTempoActive = s.tapTempoActive ∧
    (ClearBuffer s).delayCycleCounter = s.delayCycleCounter ∧
    (ClearBuffer s).lastDelayTime = s.lastDelayTime ∧
    (ClearBuffer s).filterState1 = s.filterState1 ∧
    (ClearBuffer s).filterState2 = s.filterState2 ∧
    (ClearBuffer s).filterCoeff = s.filterCoeff ∧
    (ClearBuffer s).pulseOut1 = s.pulseOut1 ∧
    (ClearBuffer s).audioOut1 = s.audioOut1 ∧
    (ClearBuffer s).audioOut2 = s.audioOut2 :=
  ⟨rfl, rfl, rfl, rfl, rfl, rfl, rfl, rfl, rfl, rfl, rfl, rfl, rfl, rfl, rfl, rfl⟩

/-- Frame of `ReadControls`: it touches only `delayTime`, `feedback`, `wet`, the bypass flag
and the buffer. -/
theorem ReadControls_frame (s : State) (i : Inputs) :
    (ReadControls s i).writePosition = s.writePosition ∧
    (ReadControls s i).inputGain = s.inputGain ∧
    (ReadControls s i).freezeBuffer = s.freezeBuffer ∧
    (ReadControls s i).tapTempoActive = s.tapTempoActive ∧
    (ReadControls s i).delayCycleCounter = s.delayCycleCounter ∧
    (ReadControls s i).lastDelayTime = s.lastDelayTime ∧
    (ReadControls s i).filterState1 = s.filterState1 ∧
    (ReadControls s i).filterState2 = s.filterState2 ∧
    (ReadControls s i).filterCoeff = s.filterCoeff ∧
    (ReadControls s i).pulseOut1 = s.pulseOut1 ∧
    (ReadControls s i).audioOut1 = s.audioOut1 ∧
    (ReadControls s i).audioOut2 = s.audioOut2 := by
  unfold ReadControls
  simp only
  split_ifs <;> simp [ClearBuffer_frame]

theorem ReadControls_feedback_wet (s : State) (i : Inputs) :
    (ReadControls s i).feedback = asr (i.knobX * 922) 12 ∧
    (ReadControls s i).wet = asr (i.knobY * 1024) 12 := by
  unfold ReadControls
  simp only
  split_ifs <;> simp [ClearBuffer_frame]

/-- The delay time that `ReadControls` leaves behind. -/
theorem ReadControls_delayTime (s : State) (i : Inputs) :
    (ReadControls s i).delayTime =
      (let d := if s.tapTempoActive then s.delayTime else delayTimesAt (segment i)
       if i.connectedCV2 then modulatedDelay d (toInt16 i.cvIn2) else d) := by
  unfold ReadControls
  simp only
  split_ifs <;> simp_all [ClearBuffer_frame]

theorem ReadControls_delayTime_range (s : State) (i : Inputs) (h : ControlsInRange i)
    (hd : 24 ≤ s.delayTime ∧ s.delayTime ≤ 96000) :
    24 ≤ (ReadControls s i).delayTime ∧ (ReadControls s i).delayTime ≤ 96000 := by
  rw [ReadControls_delayTime]
  have h1 := delayTimesAt_range _ (segment_range i h)
  have key : ∀ d : Int, (24 ≤ d ∧ d ≤ 96000) →
      24 ≤ (if i.connectedCV2 then modulatedDelay d (toInt16 i.cvIn2) else d) ∧
      (if i.connectedCV2 then modulatedDelay d (toInt16 i.cvIn2) else d) ≤ 96000 := by
    intro d hd
    by_cases hcv : i.connectedCV2 = true
    · rw [if_pos hcv]; exact modulatedDelay_range _ _
    · rw [if_neg hcv]; exact hd
  refine key _ ?_
  by_cases ht : s.tapTempoActive = true
  · rw [if_pos ht]; exact hd
  · rw [if_neg ht]; exact ⟨by omega, h1.2⟩

/-- Frame of `UpdateDelayClock`: it touches only the cycle counter, `lastDelayTime` and the
pulse output. -/
theorem UpdateDelayClock_frame (s : State) :
    (UpdateDelayClock s).delayBuffer = s.delayBuffer ∧
    (UpdateDelayClock s).writePosition = s.writePosition ∧
    (UpdateDelayClock s).delayTime = s.delayTime ∧
    (UpdateDelayClock s).feedback = s.feedback ∧
    (UpdateDelayClock s).wet = s.wet ∧
    (UpdateDelayClock s).inputGain = s.inputGain ∧
    (UpdateDelayClock s).bypassEffect = s.bypassEffect ∧
    (UpdateDelayClock s).freezeBuffer = s.freezeBuffer ∧
    (UpdateDelayClock s).tapTempoActive = s.tapTempoActive ∧
    (UpdateDelayClock s).filterState1 = s.filterState1 ∧
    (UpdateDelayClock s).filterState2 = s.filterState2 ∧
    (UpdateDelayClock s).filterCoeff = s.filterCoeff ∧
    (UpdateDelayClock s).audioOut1 = s.audioOut1 ∧
    (UpdateDelayClock s).audioOut2 = s.audioOut2 := by
  unfold UpdateDelayClock
  simp only
  split_ifs <;> simp
/-- The LED counter and overflow counter bookkeeping at the end of the tick
leaves every other field alone: the tick is `UpdateDelayClock` after
`ReadControls` after the signal path after `HandlePulseInputs` on them. -/
theorem ProcessMainSample_fields (s : State) (i : Inputs) :
    let u := UpdateDelayClock
      (ReadControls (processSignal (HandlePulseInputs s i) (toInt16 i.audioIn1)) i)
    (ProcessMainSample s i).delayBuffer = u.delayBuffer ∧
    (ProcessMainSample s i).writePosition = u.writePosition ∧
    (ProcessMainSample s i).delayTime = u.delayTime ∧
    (ProcessMainSample s i).feedback = u.feedback ∧
    (ProcessMainSample s i).wet = u.wet ∧
    (ProcessMainSample s i).inputGain = u.inputGain ∧
    (ProcessMainSample s i).bypassEffect = u.bypassEffect ∧
    (ProcessMainSample s i).freezeBuffer = u.freezeBuffer ∧
    (ProcessMainSample s i).tapTempoActive = u.tapTempoActive ∧
    (ProcessMainSample s i).delayCycleCounter = u.delayCycleCounter ∧
    (ProcessMainSample s i).lastDelayTime = u.lastDelayTime ∧
    (ProcessMainSample s i).filterState1 = u.filterState1 ∧
    (ProcessMainSample s i).filterState2 = u.filterState2 ∧
    (ProcessMainSample s i).filterCoeff = u.filterCoeff ∧
    (ProcessMainSample s i).pulseOut1 = u.pulseOut1 ∧
    (ProcessMainSample s i).audioOut1 = u.audioOut1 ∧
    (ProcessMainSample s i).audioOut2 = u.audioOut2 := by
  unfold ProcessMainSample
  simp only
  split_ifs <;> simp

/-- One tick keeps the parameter ranges. -/
theorem ProcessMainSample_params (s : State) (i : Inputs)
    (hs : ParamsInRange s) (hi : ControlsInRange i) :
    ParamsInRange (ProcessMainSample s i) := by
  obtain ⟨hc, hd, -, -⟩ := hs
  obtain ⟨p1, p2, p3, p4, p5, -⟩ := ProcessMainSample_fields s i
  obtain ⟨-, u2, u3, u4, u5, -⟩ :=
    UpdateDelayClock_frame
      (ReadControls (processSignal (HandlePulseInputs s i) (toInt16 i.audioIn1)) i)
  obtain ⟨r1, -⟩ :=
    ReadControls_frame (processSignal (HandlePulseInputs s i) (toInt16 i.audioIn1)) i
  obtain ⟨rf, rw'⟩ :=
    ReadControls_feedback_wet (processSignal (HandlePulseInputs s i) (toInt16 i.audioIn1)) i
  obtain ⟨q1, -⟩ := processSignal_params (HandlePulseInputs s i) (toInt16 i.audioIn1)
  obtain ⟨-, h2, -⟩ := HandlePulseInputs_frame s i
  have hd' : 24 ≤ (HandlePulseInputs s i).delayTime ∧
      (HandlePulseInputs s i).delayTime ≤ 96000 := by
    rcases HandlePulseInputs_delayTime s i with h | h
    · rw [h]; exact hd
    · omega
  have hc' := processSignal_cursor (HandlePulseInputs s i) (toInt16 i.audioIn1)
    (by rw [h2]; exact hc)
  have hdr := ReadControls_delayTime_range
    (processSignal (HandlePulseInputs s i) (toInt16 i.audioIn1)) i hi (by rw [q1]; exact hd')
  have hfb := feedback_scale_range i.knobX hi.2.1
  have hwt := wet_scale_range i.knobY hi.2.2.1
  unfold ParamsInRange
  rw [p2, p3, p4, p5, u2, u3, u4, u5, r1, rf, rw']
  exact ⟨hc', hdr, ⟨hfb.1, by omega⟩, ⟨hwt.1, by omega⟩⟩

/-- C4. State invariant: in every state reached from the initial state by any
number of ticks whose knobs are in `[0, 4095]` and whose control voltages are in
`[-2048, 2047]` (any jack flags, switch values and pulse edges), the write
cursor is in `[0, 96000)`, the delay time in `[24, 96000]`, the feedback in
`[0, 922]` and wet in `[0, 1024]`. -/
theorem params_in_range_invariant (inputs : List Inputs)
    (h : ∀ i ∈ inputs, ControlsInRange i) :
    (0 ≤ (run initialState inputs).writePosition ∧
      (run initialState inputs).writePosition < 96000) ∧
    (24 ≤ (run initialState inputs).delayTime ∧
      (run initialState inputs).delayTime ≤ 96000) ∧
    (0 ≤ (run initialState inputs).feedback ∧ (run initialState inputs).feedback ≤ 922) ∧
    (0 ≤ (run initialState inputs).wet ∧ (run initialState inputs).wet ≤ 1024) := by
  have key : ∀ (l : List Inputs) (s : State), ParamsInRange s →
      (∀ i ∈ l, ControlsInRange i) → ParamsInRange (run s l) := by
    intro l
    induction l with
    | nil => intro s hs _; exact hs
    | cons i rest ih =>
      intro s hs hl
      simp only [run]
      exact ih _ (ProcessMainSample_params s i hs (hl i (List.mem_cons_self i rest)))
        (fun j hj => hl j (List.mem_cons_of_mem i hj))
  exact key inputs initialState (by unfold ParamsInRange initialState; decide) h

/-- Instance of C4: a busy tick followed by a quiet one. -/
theorem params_in_range_invariant_witness :
    (0 ≤ (run initialState [busyInputs, quietInputs]).writePosition ∧
      (run initialState [busyInputs, quietInputs]).writePosition < 96000) ∧
    (24 ≤ (run initialState [busyInputs, quietInputs]).delayTime ∧
      (run initialState [busyInputs, quietInputs]).delayTime ≤ 96000) ∧
    (0 ≤ (run initialState [busyInputs, quietInputs]).feedback ∧
      (run initialState [busyInputs, quietInputs]).feedback ≤ 922) ∧
    (0 ≤ (run initialState [busyInputs, quietInputs]).wet ∧
      (run initialState [busyInputs, quietInputs]).wet ≤ 1024) :=
  params_in_range_invariant [busyInputs, quietInputs] (by decide)

/-! ## C5: the committed outputs stay in the 12-bit range -/

theorem readPosition1_range (s : State) (hs : ParamsInRange s) :
    0 ≤ readPosition1 s ∧ readPosition1 s < 96000 := by
  obtain ⟨⟨hc1, hc2⟩, ⟨hd1, hd2⟩, -⟩ := hs
  unfold readPosition1 wrapPosition MAX_DELAY_SAMPLES
  simp only
  split_ifs <;> omega

theorem readPosition2_range (s : State) (hs : ParamsInRange s) :
    0 ≤ readPosition2 s ∧ readPosition2 s < 96000 := by
  obtain ⟨⟨hc1, hc2⟩, ⟨hd1, hd2⟩, -⟩ := hs
  have h3 : 0 ≤ delayTime2 s ∧ delayTime2 s ≤ 96000 := by
    unfold delayTime2
    rw [Int.tdiv_eq_ediv (by omega) (by omega), Int.tdiv_eq_ediv (by omega) (by omega)]
    split_ifs <;> omega
  unfold readPosition2 wrapPosition MAX_DELAY_SAMPLES
  simp only
  split_ifs <;> omega

/-- A crossfade of two 12-bit values with a weight in `[0, 1024]` is a 12-bit
value. -/
theorem mix_range (x t w : Int) (hx : -2048 ≤ x ∧ x ≤ 2047) (ht : -2048 ≤ t ∧ t ≤ 2047)
    (hw : 0 ≤ w ∧ w ≤ 1024) :
    -2048 ≤ asr (x * (1024 - w) + t * w) 10 ∧ asr (x * (1024 - w) + t * w) 10 ≤ 2047 := by
  rw [asr10]
  have h1 : x * (1024 - w) + t * w ≤ 2047 * 1024 := by
    nlinarith [mul_nonneg (sub_nonneg.2 hx.2) (sub_nonneg.2 hw.2),
      mul_nonneg (sub_nonneg.2 ht.2) hw.1]
  have h2 : -(2048 * 1024) ≤ x * (1024 - w) + t * w := by
    nlinarith [mul_nonneg (sub_nonneg.2 hx.1) (sub_nonneg.2 hw.2),
      mul_nonneg (sub_nonneg.2 ht.1) hw.1]
  omega

theorem filterStep_range (st x : Int) (hst : -2048 ≤ st ∧ st ≤ 2047)
    (hx : -2048 ≤ x ∧ x ≤ 2047) :
    -2048 ≤ filterStep 819 st x ∧ filterStep 819 st x ≤ 2047 := by
  unfold filterStep
  rw [asr10]
  omega

theorem mixValue_range (s : State) (x t : Int) (hg : s.inputGain = 1024)
    (hw : 0 ≤ s.wet ∧ s.wet ≤ 1024)
    (hx : -2048 ≤ x ∧ x ≤ 2047) (ht : -2048 ≤ t ∧ t ≤ 2047) :
    -2048 ≤ mixValue s x t ∧ mixValue s x t ≤ 2047 := by
  unfold mixValue
  rw [inputSample_unity s x hg (by omega) (by omega)]
  exact mix_range x t s.wet hx ht hw

/-- The values formed by the signal path in a state within the ranges, for a
12-bit input: both taps, both mix values and both filter updates are 12-bit. -/
theorem signal_values_range (s : State) (x : Int) (hp : ParamsInRange s)
    (hs : SignalInRange s) (hx : -2048 ≤ x ∧ x ≤ 2047) :
    (-2048 ≤ mixValue s x (delaySample1 s) ∧ mixValue s x (delaySample1 s) ≤ 2047) ∧
    (-2048 ≤ mixValue s x (delaySample2 s) ∧ mixValue s x (delaySample2 s) ≤ 2047) ∧
    (-2048 ≤ outputSample1 s x ∧ outputSample1 s x ≤ 2047) ∧
    (-2048 ≤ outputSample2 s x ∧ outputSample2 s x ≤ 2047) ∧
    (-2048 ≤ filterStep s.filterCoeff s.filterState1 (outputSample1 s x) ∧
      filterStep s.filterCoeff s.filterState1 (outputSample1 s x) ≤ 2047) ∧
    (-2048 ≤ filterStep s.filterCoeff s.filterState2 (outputSample2 s x) ∧
      filterStep s.filterCoeff s.filterState2 (outputSample2 s x) ≤ 2047) := by
  obtain ⟨hg, hco, hbuf, hf1, hf2⟩ := hs
  have hw := hp.2.2.2
  have t1 := hbuf _ (readPosition1_range s hp)
  have t2 := hbuf _ (readPosition2_range s hp)
  have m1 := mixValue_range s x (delaySample1 s) hg hw hx t1
  have m2 := mixValue_range s x (delaySample2 s) hg hw hx t2
  have hin := inputSample_unity s x hg (by omega) (by omega)
  have o1 : -2048 ≤ outputSample1 s x ∧ outputSample1 s x ≤ 2047 := by
    unfold outputSample1
    split_ifs
    · rw [hin]; exact hx
    · rw [toInt16_of_range (by omega) (by omega)]; exact m1
  have o2 : -2048 ≤ outputSample2 s x ∧ outputSample2 s x ≤ 2047 := by
    unfold outputSample2
    split_ifs
    · rw [hin]; exact hx
    · rw [toInt16_of_range (by omega) (by omega)]; exact m2
  refine ⟨m1, m2, o1, o2, ?_, ?_⟩
  · rw [hco]; exact filterStep_range _ _ hf1 o1
  · rw [hco]; exact filterStep_range _ _ hf2 o2

/-- The new filter states and the committed outputs after the signal path. -/
theorem processSignal_outputs (s : State) (x : Int) :
    (processSignal s x).filterState1 =
      filterStep s.filterCoeff s.filterState1 (outputSample1 s x) ∧
    (processSignal s x).filterState2 =
      filterStep s.filterCoeff s.filterState2 (outputSample2 s x) ∧
    (processSignal s x).audioOut1 =
      toInt16 (filterStep s.filterCoeff s.filterState1 (outputSample1 s x)) ∧
    (processSignal s x).audioOut2 =
      toInt16 (filterStep s.filterCoeff s.filterState2 (outputSample2 s x)) := by
  unfold processSignal
  cases h : s.freezeBuffer <;> simp [h]

/-- The signal path keeps the buffer cells 12-bit. -/
theorem processSignal_buffer_range (s : State) (x : Int)
    (hbuf : ∀ j, 0 ≤ j ∧ j < 96000 → -2048 ≤ s.delayBuffer j ∧ s.delayBuffer j ≤ 2047) :
    ∀ j, 0 ≤ j ∧ j < 96000 →
      -2048 ≤ (processSignal s x).delayBuffer j ∧ (processSignal s x).delayBuffer j ≤ 2047 := by
  intro j hj
  cases hf : s.freezeBuffer
  · rw [(processSignal_unfrozen s x hf).1]
    unfold setAt
    split_ifs
    · have hclip : -2048 ≤ newDelaySample s x ∧ newDelaySample s x ≤ 2047 := by
        unfold newDelaySample
        simp only
        split_ifs <;> omega
      rw [toInt16_of_range (by omega) (by omega)]
      exact hclip
    · exact hbuf j hj
  · rw [(processSignal_frozen s x hf).1]
    exact hbuf j hj

theorem ReadControls_buffer (s : State) (i : Inputs) :
    (ReadControls s i).delayBuffer =
      if i.switchChanged = true ∧ i.switchVal = Switch.Up then
        clearLoop s.delayBuffer MAX_DELAY_SAMPLES.toNat
      else s.delayBuffer := by
  unfold ReadControls
  simp only
  split_ifs <;> simp_all [ClearBuffer]

theorem ReadControls_buffer_apply (s : State) (i : Inputs) (j : Int) :
    (ReadControls s i).delayBuffer j =
      if (i.switchChanged = true ∧ i.switchVal = Switch.Up) ∧ (0 ≤ j ∧ j < 96000) then 0
      else s.delayBuffer j := by
  rw [ReadControls_buffer]
  by_cases h : i.switchChanged = true ∧ i.switchVal = Switch.Up
  · rw [if_pos h, clearLoop_apply]
    simp only [h, MAX_DELAY_SAMPLES, and_self, true_and]
    norm_num
  · rw [if_neg h]
    simp [h]
theorem HandlePulseInputs_params (s : State) (i : Inputs) (hs : ParamsInRange s) :
    ParamsInRange (HandlePulseInputs s i) := by
  obtain ⟨hc, hd, hf, hw⟩ := hs
  obtain ⟨-, h2, h3, h4, -⟩ := HandlePulseInputs_frame s i
  unfold ParamsInRange
  rw [h2, h3, h4]
  refine ⟨hc, ?_, hf, hw⟩
  rcases HandlePulseInputs_delayTime s i with h | h
  · rw [h]; exact hd
  · omega

theorem HandlePulseInputs_signal (s : State) (i : Inputs) (hs : SignalInRange s) :
    SignalInRange (HandlePulseInputs s i) := by
  obtain ⟨h1, -, -, -, h5, -, -, -, h9, h10, h11, -⟩ := HandlePulseInputs_frame s i
  unfold SignalInRange
  rw [h1, h5, h9, h10, h11]
  exact hs

/-- One tick keeps the signal state 12-bit. -/
theorem ProcessMainSample_signal (s : State) (i : Inputs)
    (hp : ParamsInRange s) (hs : SignalInRange s) (ha : AudioInRange i) :
    SignalInRange (ProcessMainSample s i) := by
  have hp1 := HandlePulseInputs_params s i hp
  have hs1 := HandlePulseInputs_signal s i hs
  have hx : -2048 ≤ toInt16 i.audioIn1 ∧ toInt16 i.audioIn1 ≤ 2047 := by
    rw [toInt16_of_range (by have := ha.1; omega) (by have := ha.2; omega)]; exact ha
  obtain ⟨-, -, -, -, v5, v6⟩ :=
    signal_values_range (HandlePulseInputs s i) (toInt16 i.audioIn1) hp1 hs1 hx
  obtain ⟨o1, o2, -, -⟩ := processSignal_outputs (HandlePulseInputs s i) (toInt16 i.audioIn1)
  have hb := processSignal_buffer_range (HandlePulseInputs s i) (toInt16 i.audioIn1) hs1.2.2.1
  obtain ⟨-, -, -, q4, -⟩ := processSignal_params (HandlePulseInputs s i) (toInt16 i.audioIn1)
  obtain ⟨-, -, -, f4, -⟩ := processSignal_frame (HandlePulseInputs s i) (toInt16 i.audioIn1)
  obtain ⟨-, r2, -, -, -, -, r7, r8, r9, -⟩ :=
    ReadControls_frame (processSignal (HandlePulseInputs s i) (toInt16 i.audioIn1)) i
  obtain ⟨u1, -, -, -, -, u6, -, -, -, u10, u11, u12, -⟩ :=
    UpdateDelayClock_frame
      (ReadControls (processSignal (HandlePulseInputs s i) (toInt16 i.audioIn1)) i)
  obtain ⟨p1, -, -, -, -, p6, -, -, -, -, -, p12, p13, p14, -⟩ := ProcessMainSample_fields s i
  unfold SignalInRange
  rw [p1, p6, p12, p13, p14, u1, u6, u10, u11, u12, r2, r7, r8, r9, q4, f4, o1, o2]
  refine ⟨hs1.1, hs1.2.1, ?_, v5, v6⟩
  intro j hj
  rw [ReadControls_buffer_apply]
  split_ifs
  · omega
  · exact hb j hj

/-- Both invariants hold after every run from the initial state. -/
theorem run_in_range (inputs : List Inputs)
    (h : ∀ k ∈ inputs, ControlsInRange k ∧ AudioInRange k) :
    ParamsInRange (run initialState inputs) ∧ SignalInRange (run initialState inputs) := by
  have key : ∀ (l : List Inputs) (s : State), ParamsInRange s → SignalInRange s →
      (∀ k ∈ l, ControlsInRange k ∧ AudioInRange k) →
      ParamsInRange (run s l) ∧ SignalInRange (run s l) := by
    intro l
    induction l with
    | nil => intro s hp hs _; exact ⟨hp, hs⟩
    | cons i rest ih =>
      intro s hp hs hl
      have hi := hl i (List.mem_cons_self i rest)
      simp only [run]
      exact ih _ (ProcessMainSample_params s i hp hi.1) (ProcessMainSample_signal s i hp hs hi.2)
        (fun j hj => hl j (List.mem_cons_of_mem i hj))
  refine key inputs initialState ?_ ?_ h
  · unfold ParamsInRange initialState; decide
  · unfold SignalInRange initialState
    simp

/-- C5. Output range: on every tick of every run from the initial state whose
audio samples are in `[-2048, 2047]` and whose controls are in their ranges,
the two committed outputs are in `[-2048, 2047]`, they are the new filter
values themselves (the narrowing cast of the filter value changes nothing), and
the narrowing casts of the gained input and of both mix values change nothing.
Here `s` is the state in which the signal path of that tick runs. -/
theorem outputs_in_range (inputs : List Inputs) (i : Inputs)
    (h : ∀ k ∈ inputs, ControlsInRange k ∧ AudioInRange k)
    (hi : ControlsInRange i ∧ AudioInRange i) :
    let s := HandlePulseInputs (run initialState inputs) i
    let x := toInt16 i.audioIn1
    let s' := ProcessMainSample (run initialState inputs) i
    (-2048 ≤ s'.audioOut1 ∧ s'.audioOut1 ≤ 2047) ∧
    (-2048 ≤ s'.audioOut2 ∧ s'.audioOut2 ≤ 2047) ∧
    s'.audioOut1 = filterStep s.filterCoeff s.filterState1 (outputSample1 s x) ∧
    s'.audioOut2 = filterStep s.filterCoeff s.filterState2 (outputSample2 s x) ∧
    toInt16 (mixValue s x (delaySample1 s)) = mixValue s x (delaySample1 s) ∧
    toInt16 (mixValue s x (delaySample2 s)) = mixValue s x (delaySample2 s) ∧
    toInt16 (asr (x * s.inputGain) 10) = asr (x * s.inputGain) 10 := by
  intro s x s'
  obtain ⟨hp, hs⟩ := run_in_range inputs h
  have hp1 : ParamsInRange s := HandlePulseInputs_params _ i hp
  have hs1 : SignalInRange s := HandlePulseInputs_signal _ i hs
  have hx : -2048 ≤ x ∧ x ≤ 2047 := by
    show -2048 ≤ toInt16 i.audioIn1 ∧ toInt16 i.audioIn1 ≤ 2047
    rw [toInt16_of_range (by have := hi.2.1; omega) (by have := hi.2.2; omega)]; exact hi.2
  obtain ⟨v1, v2, -, -, v5, v6⟩ := signal_values_range s x hp1 hs1 hx
  obtain ⟨-, -, o3, o4⟩ := processSignal_outputs s x
  obtain ⟨-, -, -, -, -, -, -, -, -, -, r11, r12⟩ := ReadControls_frame (processSignal s x) i
  obtain ⟨-, -, -, -, -, -, -, -, -, -, -, -, u13, u14⟩ :=
    UpdateDelayClock_frame (ReadControls (processSignal s x) i)
  obtain ⟨-, -, -, -, -, -, -, -, -, -, -, -, -, -, -, p16, p17⟩ :=
    ProcessMainSample_fields (run initialState inputs) i
  have e1 : s'.audioOut1 = filterStep s.filterCoeff s.filterState1 (outputSample1 s x) := by
    show (ProcessMainSample (run initialState inputs) i).audioOut1 = _
    rw [p16, u13, r11, o3]
    exact toInt16_of_range (by omega) (by omega)
  have e2 : s'.audioOut2 = filterStep s.filterCoeff s.filterState2 (outputSample2 s x) := by
    show (ProcessMainSample (run initialState inputs) i).audioOut2 = _
    rw [p17, u14, r12, o4]
    exact toInt16_of_range (by omega) (by omega)
  have hin : asr (x * s.inputGain) 10 = x := by
    rw [hs1.1, asr10]; omega
  refine ⟨by rw [e1]; exact v5, by rw [e2]; exact v6, e1, e2,
    toInt16_of_range (by omega) (by omega), toInt16_of_range (by omega) (by omega), ?_⟩
  rw [hin]
  exact toInt16_of_range (by omega) (by omega)

/-- Instance of C5: the tick after a busy tick. -/
theorem outputs_in_range_witness :
    let s := HandlePulseInputs (run initialState [busyInputs]) quietInputs
    let x := toInt16 quietInputs.audioIn1
    let s' := ProcessMainSample (run initialState [busyInputs]) quietInputs
    (-2048 ≤ s'.audioOut1 ∧ s'.audioOut1 ≤ 2047) ∧
    (-2048 ≤ s'.audioOut2 ∧ s'.audioOut2 ≤ 2047) ∧
    s'.audioOut1 = filterStep s.filterCoeff s.filterState1 (outputSample1 s x) ∧
    s'.audioOut2 = filterStep s.filterCoeff s.filterState2 (outputSample2 s x) ∧
    toInt16 (mixValue s x (delaySample1 s)) = mixValue s x (delaySample1 s) ∧
    toInt16 (mixValue s x (delaySample2 s)) = mixValue s x (delaySample2 s) ∧
    toInt16 (asr (x * s.inputGain) 10) = asr (x * s.inputGain) 10 :=
  outputs_in_range [busyInputs] quietInputs (by decide) (by decide)

/-! ## C6: tap-tempo quantisation -/

/-- The search loop returns the lowest-indexed preset of minimum distance among
the indices it has seen. -/
theorem closestLoop_spec (t : Int) (n i ci : Nat) (md : Int) (hci : ci < i)
    (hmd : md = |t - tapDelayTimes.getD ci 0|)
    (hmin : ∀ j, j < i → md ≤ |t - tapDelayTimes.getD j 0|)
    (hlow : ∀ j, j < ci → md < |t - tapDelayTimes.getD j 0|) :
    closestLoop t n i ci md < i + n ∧
    (∀ j, j < i + n →
      |t - tapDelayTimes.getD (closestLoop t n i ci md) 0| ≤ |t - tapDelayTimes.getD j 0|) ∧
    (∀ j, j < closestLoop t n i ci md →
      |t - tapDelayTimes.getD (closestLoop t n i ci md) 0| < |t - tapDelayTimes.getD j 0|) := by
  induction n generalizing i ci md with
  | zero =>
    simp only [closestLoop, add_zero]
    exact ⟨hci, fun j hj => hmd ▸ hmin j hj, fun j hj => hmd ▸ hlow j hj⟩
  | succ n ih =>
    simp only [closestLoop]
    split_ifs with hlt
    · have hmin' : ∀ j, j < i + 1 →
          |t - tapDelayTimes.getD i 0| ≤ |t - tapDelayTimes.getD j 0| := by
        intro j hj
        rcases Nat.lt_succ_iff_lt_or_eq.1 hj with h | h
        · exact le_of_lt (lt_of_lt_of_le hlt (hmin j h))
        · rw [h]
      have hlow' : ∀ j, j < i →
          |t - tapDelayTimes.getD i 0| < |t - tapDelayTimes.getD j 0| :=
        fun j hj => lt_of_lt_of_le hlt (hmin j hj)
      obtain ⟨r1, r2, r3⟩ := ih (i + 1) i _ (Nat.lt_succ_self i) rfl hmin' hlow'
      exact ⟨by omega, fun j hj => r2 j (by omega), r3⟩
    · have hmin' : ∀ j, j < i + 1 → md ≤ |t - tapDelayTimes.getD j 0| := by
        intro j hj
        rcases Nat.lt_succ_iff_lt_or_eq.1 hj with h | h
        · exact hmin j h
        · rw [h]; exact not_lt.1 hlt
      obtain ⟨r1, r2, r3⟩ := ih (i + 1) ci md (by omega) hmd hmin' hlow
      exact ⟨by omega, fun j hj => r2 j (by omega), r3⟩

theorem closestIndex_spec (t : Int) :
    closestIndex t < 10 ∧
    (∀ j, j < 10 →
      |t - tapDelayTimes.getD (closestIndex t) 0| ≤ |t - tapDelayTimes.getD j 0|) ∧
    (∀ j, j < closestIndex t →
      |t - tapDelayTimes.getD (closestIndex t) 0| < |t - tapDelayTimes.getD j 0|) := by
  unfold closestIndex
  have h := closestLoop_spec t 9 1 0 |t - tapDelayTimes.getD 0 0| (by omega) rfl
    (by intro j hj; have : j = 0 := by omega
        rw [this])
    (by intro j hj; omega)
  exact h

/-- What `HandleTapTempo` does to `delayTime` and `tapTempoActive`. -/
theorem HandleTapTempo_effect (s : State) :
    (HandleTapTempo s).delayTime =
      (if s.lastTapTime > 0 ∧ (2400 ≤ tapInterval s ∧ tapInterval s ≤ 96000) then
        tapDelayTimes.getD (closestIndex (tapInterval s : Int)) 0
       else s.delayTime) ∧
    (HandleTapTempo s).tapTempoActive =
      (if s.lastTapTime > 0 ∧ (2400 ≤ tapInterval s ∧ tapInterval s ≤ 96000) then true
       else s.tapTempoActive) := by
  unfold HandleTapTempo tapInterval
  simp only
  split_ifs with h1 h2 h3 h3 h3 <;> first | exact ⟨rfl, rfl⟩ | (exfalso; omega)

/-- C6. Tap-tempo quantisation: for a tap handled in a state with
`lastTapTime > 0`, if the interval (counter value minus `lastTapTime`, in
unsigned 32-bit arithmetic) lies in `[2400, 96000]`, then the new delay time is
the preset of minimum absolute difference to the interval, the lowest-indexed
one among equally close presets, and `tapTempoActive` is set; otherwise
`delayTime` and `tapTempoActive` are unchanged. -/
theorem tap_tempo_quantisation (s : State) (h : s.lastTapTime > 0) :
    ((2400 ≤ tapInterval s ∧ tapInterval s ≤ 96000) →
      ∃ k, k < 10 ∧ (HandleTapTempo s).delayTime = tapDelayTimes.getD k 0 ∧
        (∀ j, j < 10 → |(tapInterval s : Int) - tapDelayTimes.getD k 0|
          ≤ |(tapInterval s : Int) - tapDelayTimes.getD j 0|) ∧
        (∀ j, j < k → |(tapInterval s : Int) - tapDelayTimes.getD k 0|
          < |(tapInterval s : Int) - tapDelayTimes.getD j 0|) ∧
        (HandleTapTempo s).tapTempoActive = true) ∧
    (¬ (2400 ≤ tapInterval s ∧ tapInterval s ≤ 96000) →
      (HandleTapTempo s).delayTime = s.delayTime ∧
      (HandleTapTempo s).tapTempoActive = s.tapTempoActive) := by
  obtain ⟨e1, e2⟩ := HandleTapTempo_effect s
  constructor
  · intro hiv
    obtain ⟨c1, c2, c3⟩ := closestIndex_spec (tapInterval s : Int)
    refine ⟨closestIndex (tapInterval s : Int), c1, ?_, c2, c3, ?_⟩
    · rw [e1, if_pos ⟨h, hiv⟩]
    · rw [e2, if_pos ⟨h, hiv⟩]
  · intro hiv
    rw [e1, e2, if_neg (fun hh => hiv hh.2), if_neg (fun hh => hiv hh.2)]
    exact ⟨rfl, rfl⟩

/-- Instance of C6: the interval 3600 is equally close to 2400 and 4800, and
lies in the accepted window. -/
theorem tap_tempo_quantisation_witness :
    ∃ k, k < 10 ∧ (HandleTapTempo tapState).delayTime = tapDelayTimes.getD k 0 ∧
      (∀ j, j < 10 → |(tapInterval tapState : Int) - tapDelayTimes.getD k 0|
        ≤ |(tapInterval tapState : Int) - tapDelayTimes.getD j 0|) ∧
      (∀ j, j < k → |(tapInterval tapState : Int) - tapDelayTimes.getD k 0|
        < |(tapInterval tapState : Int) - tapDelayTimes.getD j 0|) ∧
      (HandleTapTempo tapState).tapTempoActive = true :=
  (tap_tempo_quantisation tapState (by decide)).1 (by decide)

/-! ## C7: bypass is edge-triggered -/

theorem ReadControls_bypass (s : State) (i : Inputs) :
    (ReadControls s i).bypassEffect =
      if i.switchChanged = true then decide (i.switchVal = Switch.Up) else s.bypassEffect := by
  unfold ReadControls
  simp only
  split_ifs <;> simp_all [ClearBuffer_frame]

/-- C7. After `ReadControls`: (a) if the switch changed and is up, bypass is on
and all 96000 buffer cells are 0; (b) if the switch changed and is not up,
bypass is off and the buffer is untouched; (c) if the switch did not change,
bypass and buffer are untouched, whatever the held position. -/
theorem bypass_edge_triggered (s : State) (i : Inputs) :
    ((i.switchChanged = true ∧ i.switchVal = Switch.Up) →
      (ReadControls s i).bypassEffect = true ∧
      ∀ j, 0 ≤ j ∧ j < 96000 → (ReadControls s i).delayBuffer j = 0) ∧
    ((i.switchChanged = true ∧ i.switchVal ≠ Switch.Up) →
      (ReadControls s i).bypassEffect = false ∧
      (ReadControls s i).delayBuffer = s.delayBuffer) ∧
    (i.switchChanged = false →
      (ReadControls s i).bypassEffect = s.bypassEffect ∧
      (ReadControls s i).delayBuffer = s.delayBuffer) := by
  refine ⟨?_, ?_, ?_⟩
  · intro h
    constructor
    · rw [ReadControls_bypass, if_pos h.1]; simp [h.2]
    · intro j hj
      rw [ReadControls_buffer_apply, if_pos ⟨h, hj⟩]
  · intro h
    constructor
    · rw [ReadControls_bypass, if_pos h.1]; simp [h.2]
    · rw [ReadControls_buffer, if_neg (fun hh => h.2 hh.2)]
  · intro h
    constructor
    · rw [ReadControls_bypass, if_neg (by simp [h])]
    · rw [ReadControls_buffer, if_neg (by simp [h])]

/-- Instance of C7: the switch moved up, moved down, and held up. -/
theorem bypass_edge_triggered_witness :
    ((ReadControls initialState busyInputs).bypassEffect = true ∧
      ∀ j, 0 ≤ j ∧ j < 96000 → (ReadControls initialState busyInputs).delayBuffer j = 0) ∧
    ((ReadControls initialState switchDownInputs).bypassEffect = false ∧
      (ReadControls initialState switchDownInputs).delayBuffer = initialState.delayBuffer) ∧
    ((ReadControls initialState switchHeldInputs).bypassEffect = initialState.bypassEffect ∧
      (ReadControls initialState switchHeldInputs).delayBuffer = initialState.delayBuffer) :=
  ⟨(bypass_edge_triggered initialState busyInputs).1 (by decide),
   (bypass_edge_triggered initialState switchDownInputs).2.1 (by decide),
   (bypass_edge_triggered initialState switchHeldInputs).2.2 (by decide)⟩

/-! ## C8: after `ClearBuffer` every read returns 0 until the next write -/

theorem wrapPosition_range (cursor offset : Int)
    (hc : 0 ≤ cursor ∧ cursor < MAX_DELAY_SAMPLES)
    (ho : 0 ≤ offset ∧ offset ≤ MAX_DELAY_SAMPLES) :
    0 ≤ wrapPosition cursor offset ∧ wrapPosition cursor offset < 96000 := by
  unfold MAX_DELAY_SAMPLES at hc ho
  unfold wrapPosition MAX_DELAY_SAMPLES
  simp only
  split_ifs <;> omega

/-- The buffer after a tick on which the buffer is frozen: only the clear on a
switch change to up can touch it. -/
theorem ProcessMainSample_buffer_frozen (s : State) (i : Inputs)
    (hf : (HandlePulseInputs s i).freezeBuffer = true) (j : Int) :
    (ProcessMainSample s i).delayBuffer j =
      if (i.switchChanged = true ∧ i.switchVal = Switch.Up) ∧ (0 ≤ j ∧ j < 96000) then 0
      else s.delayBuffer j := by
  obtain ⟨p1, -⟩ := ProcessMainSample_fields s i
  obtain ⟨u1, -⟩ := UpdateDelayClock_frame
    (ReadControls (processSignal (HandlePulseInputs s i) (toInt16 i.audioIn1)) i)
  rw [p1, u1, ReadControls_buffer_apply,
    (processSignal_frozen (HandlePulseInputs s i) (toInt16 i.audioIn1) hf).1,
    (HandlePulseInputs_frame s i).1]

theorem FrozenRun_zero (inputs : List Inputs) (s : State) (hfr : FrozenRun s inputs)
    (hz : ∀ j, 0 ≤ j ∧ j < 96000 → s.delayBuffer j = 0) :
    ∀ j, 0 ≤ j ∧ j < 96000 → (run s inputs).delayBuffer j = 0 := by
  induction inputs generalizing s with
  | nil => exact hz
  | cons i rest ih =>
    obtain ⟨hf, hrest⟩ := hfr
    simp only [run]
    refine ih _ hrest ?_
    intro j hj
    rw [ProcessMainSample_buffer_frozen s i hf j]
    split_ifs
    · rfl
    · exact hz j hj

/-- C8. After `ClearBuffer`, for every write cursor in `[0, 96000)` and every
read offset in `[0, 96000]`, the buffer read at the wrapped position
(`cursor - offset`, plus 96000 when negative) returns 0, and it still does
after any number of subsequent ticks on which no write occurs. -/
theorem clear_then_reads_zero (s : State) (inputs : List Inputs)
    (hfr : FrozenRun (ClearBuffer s) inputs) (cursor offset : Int)
    (hc : 0 ≤ cursor ∧ cursor < MAX_DELAY_SAMPLES)
    (ho : 0 ≤ offset ∧ offset ≤ MAX_DELAY_SAMPLES) :
    (ClearBuffer s).delayBuffer (wrapPosition cursor offset) = 0 ∧
    (run (ClearBuffer s) inputs).delayBuffer (wrapPosition cursor offset) = 0 := by
  have hz : ∀ j, 0 ≤ j ∧ j < 96000 → (ClearBuffer s).delayBuffer j = 0 := by
    intro j hj
    rw [ClearBuffer_apply, if_pos (by unfold MAX_DELAY_SAMPLES; exact hj)]
  have hw := wrapPosition_range cursor offset hc ho
  exact ⟨hz _ hw, FrozenRun_zero inputs _ hfr hz _ hw⟩

/-- Instance of C8: a buffer holding audio is cleared, then the freeze edge
arrives and two more ticks pass; the read 96000 behind cursor 5 returns 0. -/
theorem clear_then_reads_zero_witness :
    (ClearBuffer (run initialState [quietInputs])).delayBuffer (wrapPosition 5 96000) = 0 ∧
    (run (ClearBuffer (run initialState [quietInputs]))
      [freezeInputs, quietInputs, switchHeldInputs]).delayBuffer (wrapPosition 5 96000) = 0 :=
  clear_then_reads_zero (run initialState [quietInputs])
    [freezeInputs, quietInputs, switchHeldInputs]
    ⟨by decide, by decide, by decide, trivial⟩ 5 96000 (by decide) (by decide)

/-! ## C9: what a frozen buffer keeps -/

theorem UpdateDelayClock_frozen (s : State) (hf : s.freezeBuffer = true) :
    (UpdateDelayClock s).delayCycleCounter =
      if s.delayTime ≠ s.lastDelayTime then 0 else s.delayCycleCounter := by
  unfold UpdateDelayClock
  simp only
  split_ifs <;> simp_all

/-- One tick on a frozen buffer without a freeze edge. -/
theorem ProcessMainSample_frozen (s : State) (i : Inputs) (hf : s.freezeBuffer = true)
    (hno : i.pulseIn2RisingEdge = false) :
    (HandlePulseInputs s i).freezeBuffer = true ∧
    (ProcessMainSample s i).freezeBuffer = true ∧
    (ProcessMainSample s i).writePosition = s.writePosition ∧
    (ProcessMainSample s i).delayCycleCounter =
      if clockDelayTime s i ≠ s.lastDelayTime then 0 else s.delayCycleCounter := by
  have h1 : (HandlePulseInputs s i).freezeBuffer = true := by
    rw [HandlePulseInputs_freeze, hno]; simpa using hf
  obtain ⟨-, p2, -, -, -, -, -, p8, -, p10, -⟩ := ProcessMainSample_fields s i
  obtain ⟨-, u2, -, -, -, -, -, u8, -⟩ := UpdateDelayClock_frame
    (ReadControls (processSignal (HandlePulseInputs s i) (toInt16 i.audioIn1)) i)
  obtain ⟨r1, -, r3, -, r5, r6, -⟩ :=
    ReadControls_frame (processSignal (HandlePulseInputs s i) (toInt16 i.audioIn1)) i
  obtain ⟨-, -, -, -, -, q6⟩ := processSignal_params (HandlePulseInputs s i) (toInt16 i.audioIn1)
  obtain ⟨-, f2, f3, -⟩ := processSignal_frame (HandlePulseInputs s i) (toInt16 i.audioIn1)
  obtain ⟨-, h2, -, -, -, -, h7, h8, -⟩ := HandlePulseInputs_frame s i
  have hr : (ReadControls (processSignal (HandlePulseInputs s i) (toInt16 i.audioIn1))
      i).freezeBuffer = true := by rw [r3, q6, h1]
  refine ⟨h1, ?_, ?_, ?_⟩
  · rw [p8, u8, hr]
  · rw [p2, u2, r1, (processSignal_frozen _ _ h1).2, h2]
  · rw [p10, UpdateDelayClock_frozen _ hr, r5, r6, f2, f3, h7, h8]
    rfl

/-- C9 as the code has it. For every state with `freezeBuffer = true` and every
sequence of ticks without a rising edge on pulse input 2: the buffer stays
frozen and the write cursor is unchanged; every buffer cell is unchanged or 0,
and the whole buffer is unchanged when on no tick the switch changes to up; the
cycle counter is unchanged or 0, and is unchanged when on every tick the delay
time seen by `UpdateDelayClock` equals `lastDelayTime`. -/
theorem freeze_invariance (s : State) (inputs : List Inputs)
    (hf : s.freezeBuffer = true) (hno : ∀ i ∈ inputs, i.pulseIn2RisingEdge = false) :
    (run s inputs).freezeBuffer = true ∧
    (run s inputs).writePosition = s.writePosition ∧
    (∀ j, (run s inputs).delayBuffer j = s.delayBuffer j ∨ (run s inputs).delayBuffer j = 0) ∧
    ((∀ i ∈ inputs, ¬ (i.switchChanged = true ∧ i.switchVal = Switch.Up)) →
      (run s inputs).delayBuffer = s.delayBuffer) ∧
    ((run s inputs).delayCycleCounter = s.delayCycleCounter ∨
      (run s inputs).delayCycleCounter = 0) ∧
    (DelayStableRun s inputs → (run s inputs).delayCycleCounter = s.delayCycleCounter) := by
  induction inputs generalizing s with
  | nil =>
    exact ⟨hf, rfl, fun j => Or.inl rfl, fun _ => rfl, Or.inl rfl, fun _ => rfl⟩
  | cons i rest ih =>
    have hi := hno i (List.mem_cons_self i rest)
    obtain ⟨t1, t2, t3, t4⟩ := ProcessMainSample_frozen s i hf hi
    have tb := ProcessMainSample_buffer_frozen s i t1
    obtain ⟨r1, r2, r3, r4, r5, r6⟩ :=
      ih (ProcessMainSample s i) t2 (fun j hj => hno j (List.mem_cons_of_mem i hj))
    simp only [run]
    refine ⟨r1, r2.trans t3, ?_, ?_, ?_, ?_⟩
    · intro j
      rcases r3 j with h | h
      · rw [h, tb j]
        split_ifs
        · exact Or.inr rfl
        · exact Or.inl rfl
      · exact Or.inr h
    · intro hsw
      rw [r4 (fun j hj => hsw j (List.mem_cons_of_mem i hj))]
      funext j
      rw [tb j, if_neg (fun hh => hsw i (List.mem_cons_self i rest) hh.1)]
    · rcases r5 with h | h
      · rw [h, t4]
        split_ifs
        · exact Or.inr rfl
        · exact Or.inl rfl
      · exact Or.inr h
    · intro hst
      obtain ⟨hst1, hst2⟩ := hst
      rw [r6 hst2, t4, if_neg (by simpa using hst1)]

/-- Instance of C9 as the code has it: the frozen state, one quiet tick (same
knob position, no switch change). -/
theorem freeze_invariance_witness :
    (run frozenState [quietInputs]).freezeBuffer = true ∧
    (run frozenState [quietInputs]).writePosition = frozenState.writePosition ∧
    (∀ j, (run frozenState [quietInputs]).delayBuffer j = frozenState.delayBuffer j ∨
      (run frozenState [quietInputs]).delayBuffer j = 0) ∧
    (run frozenState [quietInputs]).delayBuffer = frozenState.delayBuffer ∧
    ((run frozenState [quietInputs]).delayCycleCounter = frozenState.delayCycleCounter ∨
      (run frozenState [quietInputs]).delayCycleCounter = 0) ∧
    (run frozenState [quietInputs]).delayCycleCounter = frozenState.delayCycleCounter :=
  have h := freeze_invariance frozenState [quietInputs] (by decide) (by decide)
  ⟨h.1, h.2.1, h.2.2.1, h.2.2.2.1 (by decide), h.2.2.2.2.1,
    h.2.2.2.2.2 ⟨by decide, trivial⟩⟩

/-- C9 as stated fails. In the frozen state reached by a quiet tick and a freeze
edge, one more tick without any pulse edge and with all inputs in range (main
knob turned to its top, switch moved up) zeroes buffer cell 0, which held 100,
and resets the cycle counter from 1 to 0. -/
theorem freeze_invariance_counterexample :
    frozenState.freezeBuffer = true ∧
    (∀ i ∈ [knobUpInputs],
      i.pulseIn2RisingEdge = false ∧ ControlsInRange i ∧ AudioInRange i) ∧
    frozenState.delayBuffer 0 = 100 ∧
    (run frozenState [knobUpInputs]).delayBuffer 0 = 0 ∧
    frozenState.delayCycleCounter = 1 ∧
    (run frozenState [knobUpInputs]).delayCycleCounter = 0 := by
  refine ⟨by decide, by decide, by decide, ?_, by decide, by decide⟩
  simp only [run]
  rw [ProcessMainSample_buffer_frozen frozenState knobUpInputs (by decide) 0]
  decide

/-! ## C10: clock resynchronisation on a delay-time change -/

/-- C10 as the code has it. When the delay time seen by `UpdateDelayClock`
differs from `lastDelayTime` and lies in `[24, 96000]`, then after the call the
pulse output is low, `lastDelayTime` is the new delay time, and the cycle
counter is 0 if the buffer is frozen and 1 otherwise: the counter is reset and
then, unless frozen, incremented in the same call. -/
theorem clock_resync (s : State) (hne : s.delayTime ≠ s.lastDelayTime)
    (hd : 24 ≤ s.delayTime ∧ s.delayTime ≤ 96000) :
    (UpdateDelayClock s).pulseOut1 = false ∧
    (UpdateDelayClock s).lastDelayTime = s.delayTime ∧
    (UpdateDelayClock s).delayCycleCounter = (if s.freezeBuffer then 0 else 1) := by
  obtain ⟨hd1, hd2⟩ := hd
  unfold UpdateDelayClock
  simp only [hne, ne_eq, not_false_eq_true, if_true]
  cases hf : s.freezeBuffer
  · have h1 : ¬ s.delayTime ≤ 1 := by omega
    simp [h1]
  · simp

/-- Instance of C10 as the code has it: the delay time has just moved from
24000 to 48 and the buffer is not frozen. -/
theorem clock_resync_witness :
    (UpdateDelayClock retunedState).pulseOut1 = false ∧
    (UpdateDelayClock retunedState).lastDelayTime = retunedState.delayTime ∧
    (UpdateDelayClock retunedState).delayCycleCounter =
      (if retunedState.freezeBuffer then 0 else 1) :=
  clock_resync retunedState (by decide) (by decide)

/-- C10 as stated fails. With the delay time moved from 24000 to 48 and the
buffer not frozen, the cycle counter after `UpdateDelayClock` is 1, not 0; the
first quiet tick from the initial state is such a tick. -/
theorem clock_resync_counterexample :
    retunedState.delayTime ≠ retunedState.lastDelayTime ∧
    (24 ≤ retunedState.delayTime ∧ retunedState.delayTime ≤ 96000) ∧
    (UpdateDelayClock retunedState).delayCycleCounter = 1 ∧
    clockDelayTime initialState quietInputs = 48 ∧
    initialState.lastDelayTime = 24000 ∧
    (ProcessMainSample initialState quietInputs).delayCycleCounter = 1 := by
  decide

/-! ## C11: one pulse per delay cycle -/

/-- One call of `UpdateDelayClock` when the delay time has not changed and the
buffer is not frozen. -/
theorem UpdateDelayClock_stable (s : State) (hl : s.delayTime = s.lastDelayTime)
    (hf : s.freezeBuffer = false) :
    (UpdateDelayClock s).delayCycleCounter =
      (if s.delayCycleCounter + 1 ≥ s.delayTime then 0 else s.delayCycleCounter + 1) ∧
    (UpdateDelayClock s).pulseOut1 =
      (if s.delayCycleCounter + 1 ≥ s.delayTime then true
       else if s.delayCycleCounter + 1 = 480 then false else s.pulseOut1) ∧
    (UpdateDelayClock s).lastDelayTime = s.lastDelayTime := by
  unfold UpdateDelayClock
  simp only [hl, ne_eq, not_true_eq_false, if_false, hf, Bool.not_false, if_true]
  split_ifs <;> simp

theorem clockRun_frame (s : State) (n : Nat) :
    (clockRun s n).delayTime = s.delayTime ∧
    (clockRun s n).freezeBuffer = s.freezeBuffer := by
  induction n with
  | zero => exact ⟨rfl, rfl⟩
  | succ n ih =>
    obtain ⟨-, -, u3, -, -, -, -, u8, -⟩ := UpdateDelayClock_frame (clockRun s n)
    simp only [clockRun]
    exact ⟨u3.trans ih.1, u8.trans ih.2⟩

theorem clockRun_lastDelayTime (s : State) (hl : s.delayTime = s.lastDelayTime)
    (hf : s.freezeBuffer = false) (n : Nat) :
    (clockRun s n).lastDelayTime = s.lastDelayTime := by
  induction n with
  | zero => rfl
  | succ n ih =>
    obtain ⟨c1, c2⟩ := clockRun_frame s n
    simp only [clockRun]
    rw [(UpdateDelayClock_stable _ (by rw [c1, ih, hl]) (by rw [c2, hf])).2.2, ih]

theorem succ_mod_cases (n d : Nat) (hd : 1 < d) :
    (n + 1) % d = if n % d + 1 = d then 0 else n % d + 1 := by
  have h := Nat.mod_lt n (by omega : d > 0)
  rw [Nat.add_mod, Nat.mod_eq_of_lt hd]
  split_ifs with h1
  · rw [h1, Nat.mod_self]
  · exact Nat.mod_eq_of_lt (by omega)

/-- The counter after `n` calls at a constant delay time `d`, from counter 0. -/
theorem clockRun_counter (s : State) (d : Nat) (hd : 1 < d) (hdt : s.delayTime = d)
    (hl : s.lastDelayTime = d) (hc : s.delayCycleCounter = 0)
    (hf : s.freezeBuffer = false) (n : Nat) :
    (clockRun s n).delayCycleCounter = ((n % d : Nat) : Int) := by
  induction n with
  | zero => simp [clockRun, hc]
  | succ n ih =>
    obtain ⟨c1, c2⟩ := clockRun_frame s n
    have c3 := clockRun_lastDelayTime s (by rw [hdt, hl]) hf n
    simp only [clockRun]
    rw [(UpdateDelayClock_stable _ (by rw [c1, c3, hdt, hl]) (by rw [c2, hf])).1, ih, c1, hdt,
      succ_mod_cases n d hd]
    have h := Nat.mod_lt n (by omega : d > 0)
    generalize n % d = r at h ⊢
    split_ifs <;> first | rfl | omega

theorem wrap_iff (r d : Nat) (h : r < d) :
    ((r : Int) + 1 ≥ (d : Int)) ↔ (if r + 1 = d then 0 else r + 1) = 0 := by
  split_ifs <;> constructor <;> intro h2 <;> first | omega | exact False.elim h2

theorem pulseStarts_stable (s : State) (hl : s.delayTime = s.lastDelayTime)
    (hf : s.freezeBuffer = false) :
    pulseStarts s = true ↔ s.delayCycleCounter + 1 ≥ s.delayTime := by
  unfold pulseStarts
  simp [hl, hf]

/-- The predicate `pulseStarts` read on the code: the call of
`UpdateDelayClock` in state `s` executes `PulseOut1(true)` exactly when, run
from a low pulse level, it leaves the level high. -/
theorem pulseStarts_iff_raises (s : State) :
    pulseStarts s = true ↔
      (UpdateDelayClock { s with pulseOut1 := false }).pulseOut1 = true := by
  unfold pulseStarts UpdateDelayClock
  simp only
  cases hf : s.freezeBuffer <;> split_ifs <;> simp_all

/-- C11. One pulse per delay cycle: at a constant delay time `d` in
`[24, 96000]`, from a clock state with counter 0 and `lastDelayTime = d` and
with the buffer not frozen, the counter after `n` calls of `UpdateDelayClock`
is `n mod d`, so it lies in `[0, d)`; and call number `n + 1` (the call made in
the state after `n` calls) sets `PulseOut1` high if and only if `n + 1` is a
multiple of `d`. "Sets high" is read on `UpdateDelayClock` itself: run from a
low pulse level, the call leaves the level high. In the run itself the level
is high after every call whose number is a multiple of `d`, and a call whose
number is not a multiple of `d` never raises it. -/
theorem one_pulse_per_cycle (s : State) (d : Nat) (hd : 24 ≤ d ∧ d ≤ 96000)
    (hdt : s.delayTime = d) (hl : s.lastDelayTime = d) (hc : s.delayCycleCounter = 0)
    (hf : s.freezeBuffer = false) (n : Nat) :
    (clockRun s n).delayCycleCounter = ((n % d : Nat) : Int) ∧
    (0 ≤ (clockRun s n).delayCycleCounter ∧ (clockRun s n).delayCycleCounter < d) ∧
    ((UpdateDelayClock { clockRun s n with pulseOut1 := false }).pulseOut1 = true ↔
      d ∣ n + 1) ∧
    (d ∣ n + 1 → (clockRun s (n + 1)).pulseOut1 = true) ∧
    (¬ d ∣ n + 1 →
      (clockRun s (n + 1)).pulseOut1 = true → (clockRun s n).pulseOut1 = true) := by
  have hcnt := clockRun_counter s d (by omega) hdt hl hc hf n
  obtain ⟨c1, c2⟩ := clockRun_frame s n
  have c3 := clockRun_lastDelayTime s (by rw [hdt, hl]) hf n
  have hst : (clockRun s n).delayTime = (clockRun s n).lastDelayTime := by rw [c1, c3, hdt, hl]
  have hfr : (clockRun s n).freezeBuffer = false := by rw [c2, hf]
  have hmod := Nat.mod_lt n (by omega : d > 0)
  have hge : (clockRun s n).delayCycleCounter + 1 ≥ (clockRun s n).delayTime ↔ d ∣ n + 1 := by
    rw [hcnt, c1, hdt, Nat.dvd_iff_mod_eq_zero, succ_mod_cases n d (by omega)]
    exact wrap_iff (n % d) d hmod
  have hlev := (UpdateDelayClock_stable _ hst hfr).2.1
  refine ⟨hcnt, ⟨by rw [hcnt]; exact Int.natCast_nonneg _,
    by rw [hcnt]; exact Int.ofNat_lt.2 hmod⟩, ?_, ?_, ?_⟩
  · exact (pulseStarts_iff_raises _).symm.trans ((pulseStarts_stable _ hst hfr).trans hge)
  · intro h
    simp only [clockRun]
    rw [hlev, if_pos (hge.2 h)]
  · intro h hhigh
    simp only [clockRun] at hhigh
    rw [hlev, if_neg (fun hh => h (hge.1 hh))] at hhigh
    split_ifs at hhigh
    exact hhigh

/-- Instance of C11: delay time 48 from the start of a cycle; the 48th call
sets the pulse high, the 6th does not raise it. -/
theorem one_pulse_per_cycle_witness :
    (clockRun clockState48 47).delayCycleCounter = ((47 % 48 : Nat) : Int) ∧
    (0 ≤ (clockRun clockState48 47).delayCycleCounter ∧
      (clockRun clockState48 47).delayCycleCounter < (48 : Nat)) ∧
    ((UpdateDelayClock { clockRun clockState48 47 with pulseOut1 := false }).pulseOut1 = true ↔
      48 ∣ 47 + 1) ∧
    (clockRun clockState48 (47 + 1)).pulseOut1 = true ∧
    ((clockRun clockState48 (5 + 1)).pulseOut1 = true →
      (clockRun clockState48 5).pulseOut1 = true) :=
  have h := one_pulse_per_cycle clockState48 48 (by decide) rfl rfl rfl rfl 47
  ⟨h.1, h.2.1, h.2.2.1, h.2.2.2.1 (by decide),
    (one_pulse_per_cycle clockState48 48 (by decide) rfl rfl rfl rfl 5).2.2.2.2 (by decide)⟩

/-! ## C12: delay-time selection -/

theorem segment_eq_div (i : Inputs) (h : ControlsInRange i) :
    segment i = selectionValue i / 205 := by
  obtain ⟨⟨m1, m2⟩, -, -, ⟨c1, c2⟩, -⟩ := h
  unfold segment selectionValue
  simp only
  rw [toInt16_of_range (by omega) (by omega)]
  unfold toUInt16
  rw [Int.tdiv_eq_ediv (by omega) (by omega), Int.tdiv_eq_ediv (by omega) (by omega)]
  split_ifs <;> omega

theorem delayTimesAt_lookup (seg : Int) (h : 0 ≤ seg ∧ seg ≤ 19) :
    delayTimes[seg.toNat]? = some (delayTimesAt seg) := by
  obtain ⟨h1, h2⟩ := h
  unfold delayTimesAt
  rw [if_pos h1]
  interval_cases seg <;> rfl

theorem delayTimesAt_step (k : Nat) (h : k < 19) :
    delayTimesAt (k : Int) ≤ delayTimesAt ((k : Int) + 1) := by
  interval_cases k <;> simp [delayTimesAt, delayTimes]

theorem delayTimesAt_mono (a b : Int) (ha : 0 ≤ a) (hab : a ≤ b) (hb : b ≤ 19) :
    delayTimesAt a ≤ delayTimesAt b := by
  obtain ⟨n, hn⟩ := Int.eq_ofNat_of_zero_le ha
  obtain ⟨m, hm⟩ := Int.eq_ofNat_of_zero_le (le_trans ha hab)
  subst hn hm
  have hnm : n ≤ m := by omega
  have hm19 : m ≤ 19 := by omega
  clear ha hab hb
  induction m with
  | zero =>
    have : n = 0 := by omega
    subst this; exact le_refl _
  | succ m ih =>
    rcases Nat.lt_or_ge n (m + 1) with h | h
    · have h1 := ih (by omega) (by omega)
      have h2 := delayTimesAt_step m (by omega)
      push_cast
      exact le_trans h1 h2
    · have : n = m + 1 := by omega
      subst this; exact le_refl _

/-- C12. Delay-time selection: with tap tempo inactive and the controls in
range, for the value `v` (the main knob, or CV1 + 2048 when CV1 is connected)
the segment computed by `ReadControls` is `v / 205`, it lies in `[0, 19]` (the
clamp changes nothing), the table lookup is in bounds, the delay time left by
`ReadControls` is that table entry before the LFO modulation (the entry itself
when CV2 is not connected, the modulated entry otherwise), and the selected
entry is monotonically non-decreasing in `v`. -/
theorem delay_time_selection (s : State) (i : Inputs) (ht : s.tapTempoActive = false)
    (hi : ControlsInRange i) :
    (0 ≤ selectionValue i ∧ selectionValue i ≤ 4095) ∧
    segment i = selectionValue i / 205 ∧
    (0 ≤ segment i ∧ segment i ≤ 19) ∧
    delayTimes[(segment i).toNat]? = some (delayTimesAt (segment i)) ∧
    (ReadControls s i).delayTime =
      (if i.connectedCV2 then modulatedDelay (delayTimesAt (segment i)) (toInt16 i.cvIn2)
       else delayTimesAt (segment i)) ∧
    (∀ j, ControlsInRange j → selectionValue i ≤ selectionValue j →
      delayTimesAt (segment i) ≤ delayTimesAt (segment j)) := by
  have hseg := segment_range i hi
  have hv : 0 ≤ selectionValue i ∧ selectionValue i ≤ 4095 := by
    obtain ⟨⟨m1, m2⟩, -, -, ⟨c1, c2⟩, -⟩ := hi
    unfold selectionValue
    split_ifs <;> omega
  refine ⟨hv, segment_eq_div i hi, hseg, delayTimesAt_lookup _ hseg, ?_, ?_⟩
  · rw [ReadControls_delayTime]
    simp [ht]
  · intro j hj hle
    have hsj := segment_range j hj
    refine delayTimesAt_mono _ _ hseg.1 ?_ hsj.2
    rw [segment_eq_div i hi, segment_eq_div j hj]
    omega

/-- Instance of C12: the quiet tick (main knob 0, nothing patched) in the
initial state. -/
theorem delay_time_selection_witness :
    (0 ≤ selectionValue quietInputs ∧ selectionValue quietInputs ≤ 4095) ∧
    segment quietInputs = selectionValue quietInputs / 205 ∧
    (0 ≤ segment quietInputs ∧ segment quietInputs ≤ 19) ∧
    delayTimes[(segment quietInputs).toNat]? = some (delayTimesAt (segment quietInputs)) ∧
    (ReadControls initialState quietInputs).delayTime =
      (if quietInputs.connectedCV2 then
        modulatedDelay (delayTimesAt (segment quietInputs)) (toInt16 quietInputs.cvIn2)
       else delayTimesAt (segment quietInputs)) ∧
    (∀ j, ControlsInRange j → selectionValue quietInputs ≤ selectionValue j →
      delayTimesAt (segment quietInputs) ≤ delayTimesAt (segment j)) :=
  delay_time_selection initialState quietInputs rfl (by decide)

/-! ## C13: LFO modulation depth -/

/-- The flanger tier keeps its documented depth: for the five presets up to 768
and every CV2 value in range, `|modAmount|` is at most 75 % of the delay time. -/
theorem modAmount_flanger_bound (k : Nat) (hk : k < 5) (c : Int)
    (hc : -2048 ≤ c ∧ c ≤ 2047) :
    4 * |modAmount (delayTimes.getD k 0) c| ≤ 3 * delayTimes.getD k 0 := by
  obtain ⟨h1, h2⟩ := hc
  have key : ∀ q b : Int, -b ≤ q → q ≤ b → 4 * |q| ≤ 4 * b := by
    intro q b hq1 hq2
    have := abs_le.2 ⟨hq1, hq2⟩
    linarith
  interval_cases k <;>
    simp only [delayTimes, List.getD_cons_zero, List.getD_cons_succ, modAmount] <;>
    norm_num <;> rw [asr_eq_div] <;> norm_num
  · exact key _ 36 (by omega) (by omega)
  · exact key _ 72 (by omega) (by omega)
  · exact key _ 144 (by omega) (by omega)
  · exact key _ 288 (by omega) (by omega)
  · exact key _ 576 (by omega) (by omega)

/-- C13 evaluated on the code. With the preset 1440 (chorus band) and CV2 at
-2048 the modulation amount is -23, more than 1.25 % of 1440 (which is 18):
`80 * 23 > 1440`; `ReadControls` leaves the delay time 1417. With the preset
12000 (delay band) and CV2 at -2048 the amount is -375, more than 2.5 % of
12000 (which is 300): `40 * 375 > 12000`. The shifts by 17 and 16 give depths
of 1/64 and 1/32, not the 1/80 and 1/40 of the comments. -/
theorem lfo_depth_exceeds_documented :
    ControlsInRange chorusLfoInputs ∧
    delayTimesAt (segment chorusLfoInputs) = 1440 ∧
    modAmount 1440 (-2048) = -23 ∧
    ¬ (80 * |modAmount 1440 (-2048)| ≤ 1440) ∧
    (ReadControls initialState chorusLfoInputs).delayTime = 1417 ∧
    delayTimes.getD 10 0 = 12000 ∧
    modAmount 12000 (-2048) = -375 ∧
    ¬ (40 * |modAmount 12000 (-2048)| ≤ 12000) := by
  decide

/-! ## C14: the wet/dry mix is a crossfade -/

/-- A floor-shifted crossfade lies between its two ends. -/
theorem crossfade_between (x t w : Int) (hw : 0 ≤ w ∧ w ≤ 1024) :
    min x t ≤ asr (x * (1024 - w) + t * w) 10 ∧ asr (x * (1024 - w) + t * w) 10 ≤ max x t := by
  rw [asr10]
  obtain ⟨hw1, hw2⟩ := hw
  have h1 : min x t * 1024 ≤ x * (1024 - w) + t * w := by
    have a := mul_le_mul_of_nonneg_right (min_le_left x t) (sub_nonneg.2 hw2)
    have b := mul_le_mul_of_nonneg_right (min_le_right x t) hw1
    nlinarith
  have h2 : x * (1024 - w) + t * w ≤ max x t * 1024 := by
    have a := mul_le_mul_of_nonneg_right (le_max_left x t) (sub_nonneg.2 hw2)
    have b := mul_le_mul_of_nonneg_right (le_max_right x t) hw1
    nlinarith
  generalize min x t = lo at h1
  generalize max x t = hi at h2
  generalize x * (1024 - w) + t * w = v at h1 h2
  omega

/-- C14. Wet/dry mix: with bypass off, a scaled input and taps in
`[-2048, 2047]` and wet in `[0, 1024]`, the two pre-filter channel values are
`((s * (1024 - wet)) + (t_i * wet)) >> 10` with the primary tap for channel 1
and the second tap for channel 2; each lies between `min s t_i` and
`max s t_i`; at wet 0 both equal the scaled input and at wet 1024 they equal
the taps. With bypass on both equal the scaled input, whatever wet and the
taps are. -/
theorem wet_dry_crossfade (s : State) (x : Int) :
    (s.bypassEffect = false →
      (-2048 ≤ inputSample s x ∧ inputSample s x ≤ 2047) →
      (-2048 ≤ delaySample1 s ∧ delaySample1 s ≤ 2047) →
      (-2048 ≤ delaySample2 s ∧ delaySample2 s ≤ 2047) →
      (0 ≤ s.wet ∧ s.wet ≤ 1024) →
      outputSample1 s x =
        asr (inputSample s x * (1024 - s.wet) + delaySample1 s * s.wet) 10 ∧
      outputSample2 s x =
        asr (inputSample s x * (1024 - s.wet) + delaySample2 s * s.wet) 10 ∧
      (min (inputSample s x) (delaySample1 s) ≤ outputSample1 s x ∧
        outputSample1 s x ≤ max (inputSample s x) (delaySample1 s)) ∧
      (min (inputSample s x) (delaySample2 s) ≤ outputSample2 s x ∧
        outputSample2 s x ≤ max (inputSample s x) (delaySample2 s)) ∧
      (s.wet = 0 → outputSample1 s x = inputSample s x ∧ outputSample2 s x = inputSample s x) ∧
      (s.wet = 1024 →
        outputSample1 s x = delaySample1 s ∧ outputSample2 s x = delaySample2 s)) ∧
    (s.bypassEffect = true →
      outputSample1 s x = inputSample s x ∧ outputSample2 s x = inputSample s x) := by
  constructor
  · intro hb hx h1 h2 hw
    have m1 := mix_range (inputSample s x) (delaySample1 s) s.wet hx h1 hw
    have m2 := mix_range (inputSample s x) (delaySample2 s) s.wet hx h2 hw
    have e1 : outputSample1 s x =
        asr (inputSample s x * (1024 - s.wet) + delaySample1 s * s.wet) 10 := by
      unfold outputSample1 mixValue
      simp only [hb, Bool.false_eq_true, if_false]
      exact toInt16_of_range (by omega) (by omega)
    have e2 : outputSample2 s x =
        asr (inputSample s x * (1024 - s.wet) + delaySample2 s * s.wet) 10 := by
      unfold outputSample2 mixValue
      simp only [hb, Bool.false_eq_true, if_false]
      exact toInt16_of_range (by omega) (by omega)
    refine ⟨e1, e2, ?_, ?_, ?_, ?_⟩
    · rw [e1]; exact crossfade_between _ _ _ hw
    · rw [e2]; exact crossfade_between _ _ _ hw
    · intro h0
      rw [e1, e2, h0, asr10, asr10]
      constructor <;> omega
    · intro h0
      rw [e1, e2, h0, asr10, asr10]
      constructor <;> omega
  · intro hb
    unfold outputSample1 outputSample2
    simp [hb]

/-- Instance of C14: the state after one quiet tick (sample 100 in cell 0, mix
fully dry) with bypass off, and the initial state switched to bypass. -/
theorem wet_dry_crossfade_witness :
    (outputSample1 (run initialState [quietInputs]) 7 =
        asr (inputSample (run initialState [quietInputs]) 7 *
          (1024 - (run initialState [quietInputs]).wet) +
          delaySample1 (run initialState [quietInputs]) *
            (run initialState [quietInputs]).wet) 10 ∧
      ((run initialState [quietInputs]).wet = 0 →
        outputSample1 (run initialState [quietInputs]) 7 =
          inputSample (run initialState [quietInputs]) 7 ∧
        outputSample2 (run initialState [quietInputs]) 7 =
          inputSample (run initialState [quietInputs]) 7)) ∧
    (outputSample1 (ReadControls initialState busyInputs) 7 =
        inputSample (ReadControls initialState busyInputs) 7 ∧
      outputSample2 (ReadControls initialState busyInputs) 7 =
        inputSample (ReadControls initialState busyInputs) 7) :=
  have h := (wet_dry_crossfade (run initialState [quietInputs]) 7).1
    (by decide) (by decide) (by decide) (by decide) (by decide)
  ⟨⟨h.1, h.2.2.2.2.1⟩,
    (wet_dry_crossfade (ReadControls initialState busyInputs) 7).2 (by decide)⟩

/-! ## C15: the impulse-echo scenario -/

/-- The cell written at tick `k` holds that tick's stored sample at every later
tick `n` up to `k + 96000`. -/
theorem signalRun_written (s : State) (inp : Nat → Int) (hf : s.freezeBuffer = false)
    (hc : 0 ≤ s.writePosition) (hc2 : s.writePosition < MAX_DELAY_SAMPLES)
    (n k : Nat) (hk : k < n) (hn : n ≤ k + 96000) :
    (signalRun s inp n).delayBuffer ((s.writePosition + k) % 96000) =
      toInt16 (newDelaySample (signalRun s inp k) (inp k)) := by
  induction n with
  | zero => omega
  | succ n ih =>
    obtain ⟨-, -, -, -, -, p6⟩ := signalRun_params s inp n
    simp only [signalRun]
    rw [(processSignal_unfrozen _ _ (p6.trans hf)).1, signalRun_cursor s inp n hf hc hc2]
    unfold setAt
    by_cases hkn : k = n
    · subst hkn
      rw [if_pos rfl]
    · rw [if_neg (by unfold MAX_DELAY_SAMPLES at hc2; omega)]
      exact ih (by omega) (by omega)

/-- A cell that none of the first `n` ticks has written still holds its
initial content. -/
theorem signalRun_untouched (s : State) (inp : Nat → Int) (hf : s.freezeBuffer = false)
    (hc : 0 ≤ s.writePosition) (hc2 : s.writePosition < MAX_DELAY_SAMPLES)
    (n : Nat) (j : Int) (hj : ∀ k, k < n → (s.writePosition + k) % 96000 ≠ j) :
    (signalRun s inp n).delayBuffer j = s.delayBuffer j := by
  induction n with
  | zero => rfl
  | succ n ih =>
    obtain ⟨-, -, -, -, -, p6⟩ := signalRun_params s inp n
    simp only [signalRun]
    rw [(processSignal_unfrozen _ _ (p6.trans hf)).1, signalRun_cursor s inp n hf hc hc2]
    unfold setAt
    rw [if_neg (fun h => hj n (Nat.lt_succ_self n) h.symm)]
    exact ih (fun k hk => hj k (by omega))

theorem asr_2047 (j : Nat) : asr 2047 j = ((2047 / 2 ^ j : Nat) : Int) := by
  rw [asr_eq_div]
  norm_cast

theorem echoValue_range (n : Nat) : 0 ≤ echoValue n ∧ echoValue n ≤ 2047 := by
  unfold echoValue
  split_ifs
  · rw [asr_2047]
    have h : 2047 / 2 ^ (n / 24000) ≤ 2047 := Nat.div_le_self _ _
    exact ⟨Int.natCast_nonneg _, by exact_mod_cast h⟩
  · exact ⟨le_refl _, by norm_num⟩

/-- Halving the echo of one cycle earlier gives the echo of this cycle. -/
theorem echoValue_halve (n : Nat) (h : 24000 ≤ n) :
    asr (echoValue (n - 24000) * 512) 10 = echoValue n := by
  unfold echoValue
  have hm : (n - 24000) % 24000 = n % 24000 := by omega
  have hq : n / 24000 = (n - 24000) / 24000 + 1 := by omega
  rw [hm]
  split_ifs
  · rw [hq, asr10, asr_2047, asr_2047, pow_succ, ← Nat.div_div_eq_div_mul]
    generalize 2047 / 2 ^ ((n - 24000) / 24000) = a
    omega
  · rw [asr10]; norm_num

/-- The fields of the impulse scenario at every tick. -/
theorem impulse_fields (n : Nat) :
    (signalRun impulseState impulseInput n).delayTime = 24000 ∧
    (signalRun impulseState impulseInput n).feedback = 512 ∧
    (signalRun impulseState impulseInput n).wet = 1024 ∧
    (signalRun impulseState impulseInput n).inputGain = 1024 ∧
    (signalRun impulseState impulseInput n).bypassEffect = false ∧
    (signalRun impulseState impulseInput n).freezeBuffer = false ∧
    (signalRun impulseState impulseInput n).writePosition = (n : Int) % 96000 := by
  obtain ⟨p1, p2, p3, p4, p5, p6⟩ := signalRun_params impulseState impulseInput n
  have hc := signalRun_cursor impulseState impulseInput n rfl (by decide) (by decide)
  refine ⟨p1, p2, p3, p4, p5, p6, ?_⟩
  rw [hc]
  show ((0 : Int) + n) % 96000 = (n : Int) % 96000
  rw [zero_add]

theorem impulseInput_range (n : Nat) : 0 ≤ impulseInput n ∧ impulseInput n ≤ 2047 := by
  unfold impulseInput
  split_ifs <;> norm_num

/-- The cell written at tick `k` of the impulse scenario, read at a later tick
`n` up to `k + 96000`. -/
theorem impulse_cell (n k : Nat) (hk : k < n) (hn : n ≤ k + 96000) :
    (signalRun impulseState impulseInput n).delayBuffer ((k : Int) % 96000) =
      toInt16 (newDelaySample (signalRun impulseState impulseInput k) (impulseInput k)) := by
  have h := signalRun_written impulseState impulseInput rfl (by decide) (by decide) n k hk hn
  have e : (impulseState.writePosition + (k : Int)) % 96000 = (k : Int) % 96000 := by
    show ((0 : Int) + k) % 96000 = (k : Int) % 96000
    rw [zero_add]
  rw [e] at h
  exact h

/-- A cell at or beyond the cursor has not been written during the first
96000 ticks and is still 0. -/
theorem impulse_cell_zero (n : Nat) (j : Int) (hj : (n : Int) ≤ j ∧ j < 96000) :
    (signalRun impulseState impulseInput n).delayBuffer j = 0 := by
  have h := signalRun_untouched impulseState impulseInput rfl (by decide) (by decide) n j
    (by
      intro k hk
      show ((0 : Int) + k) % 96000 ≠ j
      omega)
  rw [h]
  rfl

/-- The primary tap of the impulse scenario at tick `n`, in terms of the
stored samples. -/
theorem impulse_tap1 (n : Nat) :
    delaySample1 (signalRun impulseState impulseInput n) =
      if n < 24000 then 0
      else toInt16 (newDelaySample (signalRun impulseState impulseInput (n - 24000))
        (impulseInput (n - 24000))) := by
  obtain ⟨f1, -, -, -, -, -, f7⟩ := impulse_fields n
  unfold delaySample1 readPosition1 wrapPosition MAX_DELAY_SAMPLES
  rw [f1, f7]
  simp only
  by_cases hn : n < 24000
  · rw [if_pos hn, if_pos (by omega)]
    exact impulse_cell_zero n _ (by omega)
  · rw [if_neg hn]
    have e : (if (n : Int) % 96000 - 24000 < 0 then (n : Int) % 96000 - 24000 + 96000
        else (n : Int) % 96000 - 24000) = ((n - 24000 : Nat) : Int) % 96000 := by
      split_ifs <;> omega
    rw [e]
    exact impulse_cell n (n - 24000) (by omega) (by omega)

/-- The second tap of the impulse scenario at tick `n`: 18000 samples back. -/
theorem impulse_tap2 (n : Nat) :
    delaySample2 (signalRun impulseState impulseInput n) =
      if n < 18000 then 0
      else toInt16 (newDelaySample (signalRun impulseState impulseInput (n - 18000))
        (impulseInput (n - 18000))) := by
  obtain ⟨f1, -, -, -, -, -, f7⟩ := impulse_fields n
  have h2 : delayTime2 (signalRun impulseState impulseInput n) = 18000 := by
    unfold delayTime2
    rw [f1]
    decide
  unfold delaySample2 readPosition2 wrapPosition MAX_DELAY_SAMPLES
  rw [h2, f7]
  simp only
  by_cases hn : n < 18000
  · rw [if_pos hn, if_pos (by omega)]
    exact impulse_cell_zero n _ (by omega)
  · rw [if_neg hn]
    have e : (if (n : Int) % 96000 - 18000 < 0 then (n : Int) % 96000 - 18000 + 96000
        else (n : Int) % 96000 - 18000) = ((n - 18000 : Nat) : Int) % 96000 := by
      split_ifs <;> omega
    rw [e]
    exact impulse_cell n (n - 18000) (by omega) (by omega)

/-- The sample stored at tick `n` of the impulse scenario is `echoValue n`. -/
theorem impulse_stored (n : Nat) :
    toInt16 (newDelaySample (signalRun impulseState impulseInput n) (impulseInput n)) =
      echoValue n := by
  induction n using Nat.strong_induction_on with
  | _ n ih =>
    obtain ⟨-, f2, -, f4, -, -, -⟩ := impulse_fields n
    have hin := impulseInput_range n
    have hr := echoValue_range n
    have hsum : feedbackSum (signalRun impulseState impulseInput n) (impulseInput n) =
        echoValue n := by
      unfold feedbackSum
      rw [inputSample_unity _ _ f4 (by omega) (by omega), impulse_tap1, f2]
      by_cases hn : n < 24000
      · rw [if_pos hn, asr10]
        unfold impulseInput echoValue
        by_cases h0 : n = 0
        · subst h0
          decide
        · rw [if_neg h0, if_neg (by omega)]
          norm_num
      · rw [if_neg hn, ih (n - 24000) (by omega), echoValue_halve n (by omega)]
        unfold impulseInput
        rw [if_neg (by omega), zero_add]
    unfold newDelaySample
    rw [hsum]
    simp only
    rw [if_neg (by omega), if_neg (by omega)]
    exact toInt16_of_range (by omega) (by omega)

/-- Both pre-filter values of the impulse scenario are the taps themselves. -/
theorem impulse_outputs (n : Nat) :
    outputSample1 (signalRun impulseState impulseInput n) (impulseInput n) =
      (if n < 24000 then 0 else echoValue (n - 24000)) ∧
    outputSample2 (signalRun impulseState impulseInput n) (impulseInput n) =
      (if n < 18000 then 0 else echoValue (n - 18000)) := by
  obtain ⟨-, -, f3, -, f5, -, -⟩ := impulse_fields n
  have t1 : delaySample1 (signalRun impulseState impulseInput n) =
      (if n < 24000 then 0 else echoValue (n - 24000)) := by
    rw [impulse_tap1]
    split_ifs
    · rfl
    · exact impulse_stored _
  have t2 : delaySample2 (signalRun impulseState impulseInput n) =
      (if n < 18000 then 0 else echoValue (n - 18000)) := by
    rw [impulse_tap2]
    split_ifs
    · rfl
    · exact impulse_stored _
  have r1 : -2048 ≤ (if n < 24000 then 0 else echoValue (n - 24000)) ∧
      (if n < 24000 then 0 else echoValue (n - 24000)) ≤ 2047 := by
    have := echoValue_range (n - 24000)
    split_ifs <;> omega
  have r2 : -2048 ≤ (if n < 18000 then 0 else echoValue (n - 18000)) ∧
      (if n < 18000 then 0 else echoValue (n - 18000)) ≤ 2047 := by
    have := echoValue_range (n - 18000)
    split_ifs <;> omega
  constructor
  · unfold outputSample1 mixValue
    rw [f5, t1, f3, asr10]
    simp only [Bool.false_eq_true, if_false, sub_self, mul_zero, zero_add]
    generalize (if n < 24000 then 0 else echoValue (n - 24000)) = a at r1 ⊢
    have : a * 1024 / 1024 = a := by omega
    rw [this]
    exact toInt16_of_range (by omega) (by omega)
  · unfold outputSample2 mixValue
    rw [f5, t2, f3, asr10]
    simp only [Bool.false_eq_true, if_false, sub_self, mul_zero, zero_add]
    generalize (if n < 18000 then 0 else echoValue (n - 18000)) = a at r2 ⊢
    have : a * 1024 / 1024 = a := by omega
    rw [this]
    exact toInt16_of_range (by omega) (by omega)

/-- C15. Impulse-echo scenario: zeroed buffer, cursor 0, delay time 24000,
feedback 512, wet 1024, unity gain, no freeze, no bypass, input 2047 at tick 0
and zeros after. The pre-filter channel-1 value is `2047 >> (k - 1)` at tick
`24000 * k` for every `k ≥ 1`, non-zero there exactly for `k ≤ 11`, and 0 at
every tick that is not such a multiple. The pre-filter channel-2 value is
`2047 >> k` at tick `18000 + 24000 * k` for every `k` (2047 at tick 18000) and
0 at every other tick. -/
theorem impulse_echo :
    (∀ k, 1 ≤ k →
      outputSample1 (signalRun impulseState impulseInput (24000 * k))
        (impulseInput (24000 * k)) = asr 2047 (k - 1)) ∧
    (∀ k, 1 ≤ k → (asr 2047 (k - 1) ≠ 0 ↔ k ≤ 11)) ∧
    (∀ n, (¬ ∃ k, 1 ≤ k ∧ n = 24000 * k) →
      outputSample1 (signalRun impulseState impulseInput n) (impulseInput n) = 0) ∧
    (∀ k, outputSample2 (signalRun impulseState impulseInput (18000 + 24000 * k))
      (impulseInput (18000 + 24000 * k)) = asr 2047 k) ∧
    (∀ n, (¬ ∃ k, n = 18000 + 24000 * k) →
      outputSample2 (signalRun impulseState impulseInput n) (impulseInput n) = 0) := by
  refine ⟨?_, ?_, ?_, ?_, ?_⟩
  · intro k hk
    rw [(impulse_outputs _).1, if_neg (by omega)]
    unfold echoValue
    have e1 : (24000 * k - 24000) % 24000 = 0 := by omega
    have e2 : (24000 * k - 24000) / 24000 = k - 1 := by omega
    rw [if_pos e1, e2]
  · intro k hk
    rw [asr_2047]
    have hiff : 2047 / 2 ^ (k - 1) ≠ 0 ↔ k ≤ 11 := by
      constructor
      · intro h
        by_contra hc
        apply h
        have hp : 2 ^ 11 ≤ 2 ^ (k - 1) := Nat.pow_le_pow_right (by omega) (by omega)
        norm_num at hp
        exact Nat.div_eq_of_lt (by omega)
      · intro h
        have hp : 2 ^ (k - 1) ≤ 2 ^ 10 := Nat.pow_le_pow_right (by omega) (by omega)
        norm_num at hp
        have hpos : 0 < 2 ^ (k - 1) := pow_pos (by norm_num) _
        have := Nat.div_pos (by omega : 2 ^ (k - 1) ≤ 2047) hpos
        omega
    exact_mod_cast hiff
  · intro n hn
    rw [(impulse_outputs n).1]
    split_ifs with h
    · rfl
    · unfold echoValue
      rw [if_neg]
      intro hm
      exact hn ⟨n / 24000, by omega, by omega⟩
  · intro k
    rw [(impulse_outputs _).2, if_neg (by omega)]
    unfold echoValue
    have e1 : (18000 + 24000 * k - 18000) % 24000 = 0 := by omega
    have e2 : (18000 + 24000 * k - 18000) / 24000 = k := by omega
    rw [if_pos e1, e2]
  · intro n hn
    rw [(impulse_outputs n).2]
    split_ifs with h
    · rfl
    · unfold echoValue
      rw [if_neg]
      intro hm
      exact hn ⟨(n - 18000) / 24000, by omega⟩

/-- Instance of C15: the second repeat on channel 1 (tick 48000), the last
non-zero repeat (`k = 11`), a tick off the grid, and the second echo on
channel 2 (tick 42000). -/
theorem impulse_echo_witness :
    outputSample1 (signalRun impulseState impulseInput (24000 * 2))
      (impulseInput (24000 * 2)) = asr 2047 (2 - 1) ∧
    (asr 2047 (11 - 1) ≠ 0 ↔ 11 ≤ 11) ∧
    outputSample1 (signalRun impulseState impulseInput 5) (impulseInput 5) = 0 ∧
    outputSample2 (signalRun impulseState impulseInput (18000 + 24000 * 1))
      (impulseInput (18000 + 24000 * 1)) = asr 2047 1 ∧
    outputSample2 (signalRun impulseState impulseInput 5) (impulseInput 5) = 0 :=
  ⟨impulse_echo.1 2 (by decide), impulse_echo.2.1 11 (by decide),
    impulse_echo.2.2.1 5 (by rintro ⟨k, hk, h⟩; omega), impulse_echo.2.2.2.1 1,
    impulse_echo.2.2.2.2 5 (by rintro ⟨k, h⟩; omega)⟩

/-! ## C16: the tap-tempo path is never taken -/

theorem HandleTapTempo_tap_fields (s : State) :
    (HandleTapTempo s).tapCounter = wrap32 ((s.tapCounter : Int) + 1) ∧
    (HandleTapTempo s).lastTapTime = s.tapCounter := by
  unfold HandleTapTempo
  simp only
  split_ifs <;> simp

theorem tapInterval_eq_one (s : State) (h : TapFieldsInv s) (hl : s.lastTapTime > 0) :
    tapInterval s = 1 := by
  obtain ⟨-, hc, hlt, hrel⟩ := h
  unfold tapInterval wrap32
  rcases hrel with ⟨-, h0⟩ | h1
  · omega
  · omega

theorem HandleTapTempo_inv (s : State) (h : TapFieldsInv s) :
    TapFieldsInv (HandleTapTempo s) := by
  obtain ⟨e1, e2⟩ := HandleTapTempo_effect s
  obtain ⟨t1, t2⟩ := HandleTapTempo_tap_fields s
  have hact : (HandleTapTempo s).tapTempoActive = false := by
    rw [e2]
    split_ifs with hc
    · have := tapInterval_eq_one s h hc.1
      omega
    · exact h.1
  obtain ⟨-, hc, hlt, -⟩ := h
  unfold TapFieldsInv
  rw [t1, t2]
  refine ⟨hact, ?_, hc, Or.inr ?_⟩
  · unfold wrap32; omega
  · unfold wrap32; omega

theorem HandlePulseInputs_inv (s : State) (i : Inputs) (h : TapFieldsInv s) :
    TapFieldsInv (HandlePulseInputs s i) := by
  have h1 := HandleTapTempo_inv s h
  unfold HandlePulseInputs
  simp only
  split_ifs <;> first | exact h1 | exact h

/-- The stages after `HandlePulseInputs` leave the tap fields alone. -/
theorem ProcessMainSample_tap_fields (s : State) (i : Inputs) :
    (ProcessMainSample s i).tapTempoActive = (HandlePulseInputs s i).tapTempoActive ∧
    (ProcessMainSample s i).tapCounter = (HandlePulseInputs s i).tapCounter ∧
    (ProcessMainSample s i).lastTapTime = (HandlePulseInputs s i).lastTapTime := by
  have hp : ∀ (t : State) (x : Int),
      (processSignal t x).tapCounter = t.tapCounter ∧
      (processSignal t x).lastTapTime = t.lastTapTime ∧
      (processSignal t x).tapTempoActive = t.tapTempoActive := by
    intro t x
    unfold processSignal
    cases h : t.freezeBuffer <;> simp [h]
  have hr : ∀ (t : State),
      (ReadControls t i).tapCounter = t.tapCounter ∧
      (ReadControls t i).lastTapTime = t.lastTapTime ∧
      (ReadControls t i).tapTempoActive = t.tapTempoActive := by
    intro t
    unfold ReadControls ClearBuffer
    simp only
    split_ifs <;> exact ⟨rfl, rfl, rfl⟩
  have hu : ∀ (t : State),
      (UpdateDelayClock t).tapCounter = t.tapCounter ∧
      (UpdateDelayClock t).lastTapTime = t.lastTapTime ∧
      (UpdateDelayClock t).tapTempoActive = t.tapTempoActive := by
    intro t
    unfold UpdateDelayClock
    simp only
    split_ifs <;> exact ⟨rfl, rfl, rfl⟩
  obtain ⟨p1, p2, p3⟩ := hp (HandlePulseInputs s i) (toInt16 i.audioIn1)
  obtain ⟨r1, r2, r3⟩ := hr (processSignal (HandlePulseInputs s i) (toInt16 i.audioIn1))
  obtain ⟨u1, u2, u3⟩ :=
    hu (ReadControls (processSignal (HandlePulseInputs s i) (toInt16 i.audioIn1)) i)
  have ht : (ProcessMainSample s i).tapTempoActive = (UpdateDelayClock
      (ReadControls (processSignal (HandlePulseInputs s i) (toInt16 i.audioIn1)) i)).tapTempoActive ∧
    (ProcessMainSample s i).tapCounter = (UpdateDelayClock
      (ReadControls (processSignal (HandlePulseInputs s i) (toInt16 i.audioIn1)) i)).tapCounter ∧
    (ProcessMainSample s i).lastTapTime = (UpdateDelayClock
      (ReadControls (processSignal (HandlePulseInputs s i) (toInt16 i.audioIn1)) i)).lastTapTime := by
    unfold ProcessMainSample
    simp only
    split_ifs <;> exact ⟨rfl, rfl, rfl⟩
  exact ⟨by rw [ht.1, u3, r3, p3], by rw [ht.2.1, u1, r1, p1], by rw [ht.2.2, u2, r2, p2]⟩

theorem ProcessMainSample_inv (s : State) (i : Inputs) (h : TapFieldsInv s) :
    TapFieldsInv (ProcessMainSample s i) := by
  have h1 := HandlePulseInputs_inv s i h
  obtain ⟨t1, t2, t3⟩ := ProcessMainSample_tap_fields s i
  unfold TapFieldsInv at h1 ⊢
  rw [t1, t2, t3]
  exact h1

theorem run_inv (inputs : List Inputs) (s : State) (h : TapFieldsInv s) :
    TapFieldsInv (run s inputs) := by
  induction inputs generalizing s with
  | nil => exact h
  | cons i rest ih =>
    simp only [run]
    exact ih _ (ProcessMainSample_inv s i h)

/-- C16. The tap-tempo path is never taken: in every state reached from the
initial state by any sequence of ticks, with any pattern of rising edges on
pulse input 1 and past the 32-bit wraparound of the tap counter, tap tempo is
inactive, and whenever `lastTapTime > 0` (the only case in which
`HandleTapTempo` computes an interval) that interval is 1 in unsigned 32-bit
arithmetic, outside the accepted window `[2400, 96000]`. -/
theorem tap_tempo_unreachable (inputs : List Inputs) :
    (run initialState inputs).tapTempoActive = false ∧
    ((run initialState inputs).lastTapTime > 0 →
      tapInterval (run initialState inputs) = 1 ∧
      ¬ (2400 ≤ tapInterval (run initialState inputs) ∧
        tapInterval (run initialState inputs) ≤ 96000)) ∧
    (∀ i, (HandlePulseInputs (run initialState inputs) i).tapTempoActive = false) := by
  have h0 : TapFieldsInv initialState := by
    unfold TapFieldsInv initialState; decide
  have h := run_inv inputs initialState h0
  refine ⟨h.1, ?_, fun i => (HandlePulseInputs_inv _ i h).1⟩
  intro hl
  have h1 := tapInterval_eq_one _ h hl
  exact ⟨h1, by omega⟩

/-- Instance of C16: after two taps `lastTapTime` is 1 and the third tap would
measure the interval 1. -/
theorem tap_tempo_unreachable_witness :
    (run initialState [tapInputs, tapInputs]).tapTempoActive = false ∧
    (tapInterval (run initialState [tapInputs, tapInputs]) = 1 ∧
      ¬ (2400 ≤ tapInterval (run initialState [tapInputs, tapInputs]) ∧
        tapInterval (run initialState [tapInputs, tapInputs]) ≤ 96000)) :=
  have h := tap_tempo_unreachable [tapInputs, tapInputs]
  ⟨h.1, h.2.1 (by decide)⟩

/-! ## C17: the width of the clock pulse -/

theorem pulseEnds_stable (s : State) (hl : s.delayTime = s.lastDelayTime)
    (hf : s.freezeBuffer = false) :
    pulseEnds s = true ↔
      (¬ s.delayCycleCounter + 1 ≥ s.delayTime ∧ s.delayCycleCounter + 1 = 480) := by
  unfold pulseEnds
  simp [hl, hf]

/-- The state right after a call that set the pulse high: counter 0, pulse
high, the delay time cached. -/
theorem UpdateDelayClock_after_start (s : State) (hl : s.delayTime = s.lastDelayTime)
    (hf : s.freezeBuffer = false) (hst : pulseStarts s = true) :
    (UpdateDelayClock s).delayCycleCounter = 0 ∧
    (UpdateDelayClock s).pulseOut1 = true ∧
    (UpdateDelayClock s).lastDelayTime = s.delayTime ∧
    (UpdateDelayClock s).delayTime = s.delayTime ∧
    (UpdateDelayClock s).freezeBuffer = false := by
  have h := (pulseStarts_stable s hl hf).1 hst
  obtain ⟨e1, e2, e3⟩ := UpdateDelayClock_stable s hl hf
  obtain ⟨-, -, u3, -, -, -, -, u8, -⟩ := UpdateDelayClock_frame s
  exact ⟨by rw [e1, if_pos h], by rw [e2, if_pos h], by rw [e3, hl], u3, by rw [u8, hf]⟩

/-- From counter 0 at a constant delay time above 480: the pulse level and the
pulse events during the next 480 calls. -/
theorem clockRun_pulse_long (u : State) (d : Nat) (hd : 480 < d) (hdt : u.delayTime = d)
    (hl : u.lastDelayTime = d) (hc : u.delayCycleCounter = 0) (hf : u.freezeBuffer = false)
    (hp : u.pulseOut1 = true) (k : Nat) (hk : k < 480) :
    (clockRun u k).pulseOut1 = true ∧
    pulseStarts (clockRun u k) = false ∧
    (pulseEnds (clockRun u k) = true ↔ k = 479) ∧
    (k = 479 → (clockRun u (k + 1)).pulseOut1 = false) := by
  have hcnt : ∀ j, j < 480 → (clockRun u j).delayCycleCounter = (j : Int) := by
    intro j hj
    rw [clockRun_counter u d (by omega) hdt hl hc hf j, Nat.mod_eq_of_lt (by omega)]
  have hstab : ∀ j, (clockRun u j).delayTime = (clockRun u j).lastDelayTime ∧
      (clockRun u j).freezeBuffer = false ∧ (clockRun u j).delayTime = (d : Int) := by
    intro j
    obtain ⟨c1, c2⟩ := clockRun_frame u j
    have c3 := clockRun_lastDelayTime u (by rw [hdt, hl]) hf j
    exact ⟨by rw [c1, c3, hdt, hl], by rw [c2, hf], by rw [c1, hdt]⟩
  have hlevel : ∀ j, j < 480 → (clockRun u j).pulseOut1 = true := by
    intro j
    induction j with
    | zero => intro _; exact hp
    | succ j ih =>
      intro hj
      obtain ⟨s1, s2, s3⟩ := hstab j
      simp only [clockRun]
      rw [(UpdateDelayClock_stable _ s1 s2).2.1, hcnt j (by omega), s3,
        if_neg (by omega), if_neg (by omega)]
      exact ih (by omega)
  obtain ⟨s1, s2, s3⟩ := hstab k
  have hno : ¬ (clockRun u k).delayCycleCounter + 1 ≥ (clockRun u k).delayTime := by
    rw [hcnt k hk, s3]; omega
  refine ⟨hlevel k hk, ?_, ?_, ?_⟩
  · cases h : pulseStarts (clockRun u k)
    · rfl
    · exact absurd ((pulseStarts_stable _ s1 s2).1 h) hno
  · rw [pulseEnds_stable _ s1 s2, hcnt k hk, s3]
    constructor
    · intro h; omega
    · intro h; omega
  · intro h
    simp only [clockRun]
    rw [(UpdateDelayClock_stable _ s1 s2).2.1, hcnt k hk, s3, if_neg (by omega),
      if_pos (by omega)]

/-- From counter 0 at a constant delay time of at most 480: no call ever
executes the `PulseOut1(false)` of line 387, and a high pulse stays high. -/
theorem clockRun_pulse_short (u : State) (d : Nat) (hd : 1 < d ∧ d ≤ 480)
    (hdt : u.delayTime = d) (hl : u.lastDelayTime = d) (hc : u.delayCycleCounter = 0)
    (hf : u.freezeBuffer = false) (hp : u.pulseOut1 = true) (n : Nat) :
    (clockRun u n).pulseOut1 = true ∧ pulseEnds (clockRun u n) = false := by
  have hstab : ∀ j, (clockRun u j).delayTime = (clockRun u j).lastDelayTime ∧
      (clockRun u j).freezeBuffer = false ∧ (clockRun u j).delayTime = (d : Int) := by
    intro j
    obtain ⟨c1, c2⟩ := clockRun_frame u j
    have c3 := clockRun_lastDelayTime u (by rw [hdt, hl]) hf j
    exact ⟨by rw [c1, c3, hdt, hl], by rw [c2, hf], by rw [c1, hdt]⟩
  have hcnt : ∀ j, ∃ r : Nat, r < d ∧ (clockRun u j).delayCycleCounter = (r : Int) :=
    fun j => ⟨j % d, Nat.mod_lt j (by omega), clockRun_counter u d hd.1 hdt hl hc hf j⟩
  constructor
  · induction n with
    | zero => exact hp
    | succ n ih =>
      obtain ⟨s1, s2, s3⟩ := hstab n
      obtain ⟨r, hr, hc'⟩ := hcnt n
      simp only [clockRun]
      rw [(UpdateDelayClock_stable _ s1 s2).2.1, hc', s3]
      split_ifs with h1 h2
      · rfl
      · omega
      · exact ih
  · obtain ⟨s1, s2, s3⟩ := hstab n
    obtain ⟨r, hr, hc'⟩ := hcnt n
    cases h : pulseEnds (clockRun u n)
    · rfl
    · have := (pulseEnds_stable _ s1 s2).1 h
      rw [hc', s3] at this
      omega

/-- C17 as the code has it. At a constant delay time `d` in `(480, 96000]` with
the buffer not frozen, after a call of `UpdateDelayClock` that sets `PulseOut1`
high the pulse is still high after each of the next 479 calls, none of the next
480 calls sets it high again, and the 480th call after the one that began the
pulse, and no earlier one, sets it low. -/
theorem pulse_width (s : State) (d : Nat) (hd : 480 < d ∧ d ≤ 96000)
    (hdt : s.delayTime = d) (hl : s.lastDelayTime = d) (hf : s.freezeBuffer = false)
    (hst : pulseStarts s = true) :
    (UpdateDelayClock s).pulseOut1 = true ∧
    (∀ k, k < 480 → (clockRun (UpdateDelayClock s) k).pulseOut1 = true) ∧
    (∀ k, k < 480 → pulseStarts (clockRun (UpdateDelayClock s) k) = false) ∧
    (∀ k, k < 480 → (pulseEnds (clockRun (UpdateDelayClock s) k) = true ↔ k = 479)) ∧
    (clockRun (UpdateDelayClock s) 480).pulseOut1 = false := by
  obtain ⟨a1, a2, a3, a4, a5⟩ :=
    UpdateDelayClock_after_start s (by rw [hdt, hl]) hf hst
  have key := clockRun_pulse_long (UpdateDelayClock s) d hd.1 (by rw [a4, hdt])
    (by rw [a3, hdt]) a1 a5 a2
  exact ⟨a2, fun k hk => (key k hk).1, fun k hk => (key k hk).2.1,
    fun k hk => (key k hk).2.2.1, (key 479 (by omega)).2.2.2 rfl⟩

/-- Instance of C17 as the code has it: delay time 24000, the call that closes
a cycle. -/
theorem pulse_width_witness :
    (UpdateDelayClock clockState24000).pulseOut1 = true ∧
    (∀ k, k < 480 → (clockRun (UpdateDelayClock clockState24000) k).pulseOut1 = true) ∧
    (∀ k, k < 480 → pulseStarts (clockRun (UpdateDelayClock clockState24000) k) = false) ∧
    (∀ k, k < 480 →
      (pulseEnds (clockRun (UpdateDelayClock clockState24000) k) = true ↔ k = 479)) ∧
    (clockRun (UpdateDelayClock clockState24000) 480).pulseOut1 = false :=
  pulse_width clockState24000 24000 (by decide) rfl rfl rfl (by decide)

/-- C17 as stated fails for a delay time of at most 480. With delay time 48 the
48th call sets the pulse high; the 480th call after it does not set the pulse
low, the pulse is still high after it, and no later call ever sets it low. -/
theorem pulse_width_counterexample :
    (24 ≤ clockState48.delayTime ∧ clockState48.delayTime ≤ 96000) ∧
    clockState48.freezeBuffer = false ∧
    pulseStarts (clockRun clockState48 47) = true ∧
    (clockRun clockState48 48).pulseOut1 = true ∧
    pulseEnds (clockRun (clockRun clockState48 48) 479) = false ∧
    (clockRun (clockRun clockState48 48) 480).pulseOut1 = true ∧
    (∀ n, (clockRun (clockRun clockState48 48) n).pulseOut1 = true ∧
      pulseEnds (clockRun (clockRun clockState48 48) n) = false) := by
  have hs : (clockRun clockState48 47).delayTime = (clockRun clockState48 47).lastDelayTime ∧
      (clockRun clockState48 47).freezeBuffer = false := by
    obtain ⟨c1, c2⟩ := clockRun_frame clockState48 47
    have c3 := clockRun_lastDelayTime clockState48 rfl rfl 47
    exact ⟨by rw [c1, c3]; rfl, by rw [c2]; rfl⟩
  have hcnt := clockRun_counter clockState48 48 (by omega) rfl rfl rfl rfl 47
  have hst : pulseStarts (clockRun clockState48 47) = true := by
    rw [pulseStarts_stable _ hs.1 hs.2, hcnt, (clockRun_frame clockState48 47).1]
    decide
  obtain ⟨a1, a2, a3, a4, a5⟩ := UpdateDelayClock_after_start _ hs.1 hs.2 hst
  have hd48 : (clockRun clockState48 47).delayTime = ((48 : Nat) : Int) := by
    rw [(clockRun_frame clockState48 47).1]; rfl
  have key := clockRun_pulse_short (clockRun clockState48 48) 48 (by omega)
    (a4.trans hd48) (a3.trans hd48) a1 a5 a2
  exact ⟨by decide, rfl, hst, a2, (key 479).2, (key 480).1, key⟩

/-! ## C18: the read offsets -/

/-- C18 as the code has it. For every delay time in `[24, 96000]` the primary
read offset `delayTime` lies in `[24, 96000]` and the second-tap offset
`delayTime2` lies in `[12, 72000]`; it is at least 24 exactly when the delay
time is at least 48. -/
theorem read_offsets_range (s : State) (hd : 24 ≤ s.delayTime ∧ s.delayTime ≤ 96000) :
    (24 ≤ s.delayTime ∧ s.delayTime ≤ 96000) ∧
    delayTime2 s = (if s.delayTime ≤ 768 then s.delayTime / 2 else s.delayTime * 3 / 4) ∧
    (12 ≤ delayTime2 s ∧ delayTime2 s ≤ 72000) ∧
    (24 ≤ delayTime2 s ↔ 48 ≤ s.delayTime) := by
  obtain ⟨hd1, hd2⟩ := hd
  have h2 : delayTime2 s =
      (if s.delayTime ≤ 768 then s.delayTime / 2 else s.delayTime * 3 / 4) := by
    unfold delayTime2
    rw [Int.tdiv_eq_ediv (by omega) (by omega), Int.tdiv_eq_ediv (by omega) (by omega)]
  refine ⟨⟨hd1, hd2⟩, h2, ?_, ?_⟩
  · rw [h2]; split_ifs <;> omega
  · rw [h2]; split_ifs <;> constructor <;> intro _ <;> omega

/-- Instance of C18 as the code has it, at the initial state (delay 24000). -/
theorem read_offsets_range_witness :
    (24 ≤ initialState.delayTime ∧ initialState.delayTime ≤ 96000) ∧
    delayTime2 initialState =
      (if initialState.delayTime ≤ 768 then initialState.delayTime / 2
       else initialState.delayTime * 3 / 4) ∧
    (12 ≤ delayTime2 initialState ∧ delayTime2 initialState ≤ 72000) ∧
    (24 ≤ delayTime2 initialState ↔ 48 ≤ initialState.delayTime) :=
  read_offsets_range initialState (by decide)

/-- C18 as stated fails. With the main knob at 0 and CV2 at -2048 (both in
range) `ReadControls` leaves the delay time 24, and the second-tap offset for
it is 12, below 24. -/
theorem read_offsets_range_counterexample :
    ControlsInRange flangerLfoInputs ∧
    (ReadControls initialState flangerLfoInputs).delayTime = 24 ∧
    delayTime2 (ReadControls initialState flangerLfoInputs) = 12 ∧
    ¬ (24 ≤ delayTime2 (ReadControls initialState flangerLfoInputs)) := by
  decide

/-! ## C19: the delay time while tap tempo is active -/

/-- One tick in a state with tap tempo active and without a tap: tap tempo
stays active, and the main knob and CV1 do not enter the delay time; only the
LFO block, when CV2 is connected, rewrites it. -/
theorem ProcessMainSample_tap_active (s : State) (i : Inputs) (ht : s.tapTempoActive = true)
    (hno : i.pulseIn1RisingEdge = false) :
    (ProcessMainSample s i).tapTempoActive = true ∧
    (i.connectedCV2 = false → (ProcessMainSample s i).delayTime = s.delayTime) ∧
    (i.connectedCV2 = true →
      (ProcessMainSample s i).delayTime = modulatedDelay s.delayTime (toInt16 i.cvIn2)) := by
  have hh : HandlePulseInputs s i =
      (if i.pulseIn2RisingEdge then { s with freezeBuffer := !s.freezeBuffer } else s) := by
    unfold HandlePulseInputs
    simp [hno]
  have h1 : (HandlePulseInputs s i).tapTempoActive = true ∧
      (HandlePulseInputs s i).delayTime = s.delayTime := by
    rw [hh]; split_ifs <;> exact ⟨ht, rfl⟩
  obtain ⟨-, -, p3, -, -, -, -, -, p9, -⟩ := ProcessMainSample_fields s i
  obtain ⟨-, -, u3, -, -, -, -, -, u9, -⟩ := UpdateDelayClock_frame
    (ReadControls (processSignal (HandlePulseInputs s i) (toInt16 i.audioIn1)) i)
  obtain ⟨-, -, -, r4, -⟩ :=
    ReadControls_frame (processSignal (HandlePulseInputs s i) (toInt16 i.audioIn1)) i
  obtain ⟨q1, -⟩ := processSignal_params (HandlePulseInputs s i) (toInt16 i.audioIn1)
  obtain ⟨f1, -⟩ := processSignal_frame (HandlePulseInputs s i) (toInt16 i.audioIn1)
  have ha : (processSignal (HandlePulseInputs s i) (toInt16 i.audioIn1)).tapTempoActive
      = true := by rw [f1, h1.1]
  have hd : (ReadControls (processSignal (HandlePulseInputs s i) (toInt16 i.audioIn1))
      i).delayTime =
      (if i.connectedCV2 then modulatedDelay s.delayTime (toInt16 i.cvIn2)
       else s.delayTime) := by
    rw [ReadControls_delayTime]
    simp only [ha, if_true, q1, h1.2]
  refine ⟨by rw [p9, u9, r4, ha], ?_, ?_⟩
  · intro hc
    rw [p3, u3, hd]; simp [hc]
  · intro hc
    rw [p3, u3, hd]; simp [hc]

/-- C20. For the one-pole update with coefficient 819 and all `s`, `x` in
`[-2048, 2047]`: the state is a fixed point exactly when `0 ≤ x - s ≤ 4`; the
new state lies between `min s x` and `max s x`; from above (`x < s`) it moves
strictly down and not below `x`; from more than 4 below it moves strictly up
and not above `x`. -/
theorem filter_steady_state (s x : Int) (hs : -2048 ≤ s ∧ s ≤ 2047)
    (hx : -2048 ≤ x ∧ x ≤ 2047) :
    (filterStep 819 s x = s ↔ (0 ≤ x - s ∧ x - s ≤ 4)) ∧
    (min s x ≤ filterStep 819 s x ∧ filterStep 819 s x ≤ max s x) ∧
    (x < s → x ≤ filterStep 819 s x ∧ filterStep 819 s x < s) ∧
    (s + 4 < x → s < filterStep 819 s x ∧ filterStep 819 s x ≤ x) := by
  obtain ⟨hs1, hs2⟩ := hs
  obtain ⟨hx1, hx2⟩ := hx
  unfold filterStep
  rw [asr10]
  have e : s * 819 + x * (1024 - 819) = 819 * s + 205 * x := by ring
  rw [e]
  refine ⟨?_, ⟨?_, ?_⟩, ?_, ?_⟩
  · constructor <;> intro h <;> omega
  · rcases le_total s x with h | h
    · rw [min_eq_left h]; omega
    · rw [min_eq_right h]; omega
  · rcases le_total s x with h | h
    · rw [max_eq_right h]; omega
    · rw [max_eq_left h]; omega
  · intro h; omega
  · intro h; omega

/-- Instance of C20: state 100 with input 104, the largest gap that is a fixed
point. -/
theorem filter_steady_state_witness :
    (filterStep 819 100 104 = 100 ↔ (0 ≤ (104 : Int) - 100 ∧ (104 : Int) - 100 ≤ 4)) ∧
    (min 100 104 ≤ filterStep 819 100 104 ∧ filterStep 819 100 104 ≤ max 100 104) ∧
    ((104 : Int) < 100 → 104 ≤ filterStep 819 100 104 ∧ filterStep 819 100 104 < 100) ∧
    ((100 : Int) + 4 < 104 → 100 < filterStep 819 100 104 ∧ filterStep 819 100 104 ≤ 104) :=
  filter_steady_state 100 104 (by decide) (by decide)

end AudioDelay
